import Mathlib

/-!
Verification development for the multi-view Human3.6M dataset module
(`mvn/datasets/human36m.py`): the dataset-index builder (`__init__`),
the sample materializer (`__getitem__`), and the evaluator
(`evaluate`, `evaluate_using_per_pose_error`).

Modelling conventions:
* machine floats are modelled exactly: stored coordinates/boxes as `ℚ`,
  computed errors (which involve `np.sqrt`) as `ℝ`;
* numpy shape errors, Python `IndexError`/`KeyError`/`ValueError` and
  failed `assert`s are modelled as `Option`/`Except` failures;
* a numpy `nan` produced by a `0.0 / 0` division is modelled as `none`
  (the aggregated score type is `Option ℝ`);
* file-system access (`cv2.imread`, `os.path.isfile`) is out of scope: a
  loaded image is represented by its (camera index, camera name) token.
-/

set_option linter.unusedVariables false

namespace H36M

/-- A 3-D point with exact (rational) coordinates, standing for one stored joint. -/
structure Vec3 where
  x : ℚ
  y : ℚ
  z : ℚ
  deriving DecidableEq, Repr

/-- Pointwise difference of two joints, as in `keypoints_gt - keypoints_gt[:, 6:7]`. -/
def Vec3.sub (a b : Vec3) : Vec3 := ⟨a.x - b.x, a.y - b.y, a.z - b.z⟩

/-- One pose: the list of its joints (axis 1 of a numpy `(N, J, 3)` array). -/
abbrev Pose := List Vec3

/-- One row of the label table: fields `subject_idx`, `action_idx`, `frame_idx`,
`keypoints`, `bbox_by_camera_tlbr` (per camera, in top-left-bottom-right order). -/
structure Row where
  subject_idx : ℕ
  action_idx : ℕ
  frame_idx : ℕ
  keypoints : Pose
  bbox_by_camera_tlbr : List (ℚ × ℚ × ℚ × ℚ)
  deriving DecidableEq, Repr

/-- The labels mapping loaded from the labels file: keys `camera_names`,
`subject_names`, `action_names`, `table`. (The raw camera-parameter table is
consumed only to build opaque `Camera` collaborators and is represented by
the indices used to address it.) -/
structure Labels where
  camera_names : List String
  subject_names : List String
  action_names : List String
  table : List Row
  deriving DecidableEq, Repr

/-- The constructor configuration (the keyword arguments that the claims
depend on). `pred` is the content of the optional predictions file:
`(keypoints_3d, indexes)`. -/
structure Config where
  train : Bool
  test : Bool
  retain : ℕ
  with_damaged_actions : Bool
  kind : String
  ignore_cameras : List ℕ
  pred : Option (List Pose × List ℕ)
  deriving Repr

/-- Failure modes of `__init__`: the two `assert`s at lines 55-57, the
camera-range `assert` (line 73), the `UnboundLocalError` reached when no
branch assigns `train_subjects` (kind `"mpii"`), a `ValueError` from
`list.index` on a missing name, a `ValueError` from a zero slice step,
an `IndexError` from fancy indexing, and the prediction-length `assert`
(line 159). -/
inductive InitError where
  | noSplit
  | badKind
  | badIgnoreCamera
  | unboundLocal
  | nameError
  | zeroStride
  | indexError
  | predLenMismatch
  deriving DecidableEq, Repr

/-- The dataset state after a successful construction (the fields of
`self` that the claims touch). -/
structure Dataset where
  kind : String
  labels : Labels
  ignore_cameras : List ℕ
  num_keypoints : ℕ
  keypoints_3d_pred : Option (List Pose)
  deriving Repr

/-! ### Small list helpers mirroring numpy / Python primitives -/

/-- `enumFrom2 k l` enumerates `l` with positions starting at `k`
(Python `enumerate`, numpy row positions). -/
def enumFrom2 {α : Type} (k : ℕ) : List α → List (ℕ × α)
  | [] => []
  | x :: xs => (k, x) :: enumFrom2 (k + 1) xs

/-- Python `enumerate(l)` / numpy positions `0, 1, …`. -/
def enumList {α : Type} (l : List α) : List (ℕ × α) := enumFrom2 0 l

/-- The numpy slice `l[::k]` for a positive step `k`: the elements whose
position is a multiple of `k`. (A step of `0` raises in numpy; callers
guard it.) -/
def everyNth {α : Type} (k : ℕ) (l : List α) : List α :=
  ((enumList l).filter (fun p => p.1 % k == 0)).map (·.2)

/-- `np.nonzero(mask)[0]` for a row-wise boolean mask: the positions of the
table rows satisfying `f`, in increasing order. -/
def positionsFrom {α : Type} (f : α → Bool) (k : ℕ) : List α → List ℕ
  | [] => []
  | r :: rs => if f r then k :: positionsFrom f (k + 1) rs else positionsFrom f (k + 1) rs

/-- Positions (starting from 0) of the rows satisfying `f`. -/
def positionsWhere {α : Type} (f : α → Bool) (l : List α) : List ℕ := positionsFrom f 0 l

/-- Python `list.index`, returning `none` instead of raising `ValueError`. -/
def listIndex (l : List String) (x : String) : Option ℕ := l.findIdx? (· = x)

/-- Map a fallible function over a list, failing when any element fails
(the `Option`-monad `mapM`, defined by structural recursion). -/
def omap {α β : Type} (f : α → Option β) : List α → Option (List β)
  | [] => some []
  | a :: t =>
    match f a, omap f t with
    | some b, some bs => some (b :: bs)
    | _, _ => none

/-- Fold a fallible step over a list (the `Option`-monad `foldlM`). -/
def ofoldl {σ β : Type} (step : σ → β → Option σ) : σ → List β → Option σ
  | s, [] => some s
  | s, b :: t =>
    match step s b with
    | some s2 => ofoldl step s2 t
    | none => none

/-- Resolve every name of `xs` in the name table `names` (lines 105-106, 123). -/
def resolveAll (names : List String) (xs : List String) : Option (List ℕ) :=
  omap (listIndex names) xs

/-- Stable insertion into a list sorted by `key` (insertion after equal keys). -/
def insertByKey {α : Type} (key : α → ℕ) (x : α) : List α → List α
  | [] => [x]
  | y :: ys => if key x < key y then x :: y :: ys else y :: insertByKey key x ys

/-- Stable sort by `key`. -/
def sortByKey {α : Type} (key : α → ℕ) : List α → List α
  | [] => []
  | x :: xs => insertByKey key x (sortByKey key xs)

/-- `np.argsort(l)`: the positions of `l` reordered so that the values are
ascending. (numpy's default sort is unstable; the predictions-file index
array is a permutation, with no ties, so a stable sort is equivalent.) -/
def argsort (l : List ℕ) : List ℕ := (sortByKey (·.2) (enumList l)).map (·.1)

/-- Fancy indexing `kp[argsort idxs]`; `none` models the `IndexError` when a
position falls outside `kp`. -/
def applyArgsort (idxs : List ℕ) (kp : List Pose) : Option (List Pose) :=
  omap kp.get? (argsort idxs)

/-- `table[positions]`: numpy fancy indexing of the label table by an index
array (all positions produced by the filter are in range). -/
def filteredTable (labels : Labels) (positions : List ℕ) : List Row :=
  positions.filterMap labels.table.get?

/-! ### The constructor (`__init__`, lines 55-159) -/

/-- The kinds accepted by the `assert` at line 57. -/
def allowedKinds : List String := ["mpii", "human36m", "humaneva", "ama", "totalcap", "mpi3d"]

/-- The per-kind `train_subjects` / `test_subjects` name lists (lines 76-103).
`none` for `"mpii"`: no branch assigns the variables, so reading them at
line 105 raises `UnboundLocalError`. -/
def subjectSplit (kind : String) : Option (List String × List String) :=
  if kind = "human36m" then some (["S1", "S5", "S6", "S7", "S8"], ["S9", "S11"])
  else if kind = "humaneva" then some ([], ["S1"])
  else if kind = "totalcap" then some ([], ["s1"])
  else if kind = "mpi3d" then some ([], ["S1", "S2"])
  else none

/-- Per-kind keypoint count (lines 140-149). -/
def numKeypointsOf (kind : String) : ℕ :=
  if kind = "mpii" then 16
  else if kind = "humaneva" then 20
  else if kind = "mpi3d" then 28
  else if kind = "totalcap" then 21
  else 17

/-- The three damaged action names excluded from the test split (line 122). -/
def damagedActionNames : List String := ["Greeting-2", "SittingDown-2", "Waiting-1"]

/-- Train row positions (lines 111-114): rows whose subject is in the train
set, decimated by the fixed debug stride `4000`. -/
def trainPositions (labels : Labels) (trainIdx : List ℕ) : List ℕ :=
  everyNth 4000 (positionsWhere (fun r => trainIdx.contains r.subject_idx) labels.table)

/-- Test row positions (lines 115-136): rows whose subject is in the test
set, minus (when `with_damaged_actions` is unset and the kind is
`"human36m"`) the S9 damaged-action rows, decimated by
`retain_every_n_frames_in_test`. `none` models the `ValueError` from a
missing name. -/
def testPositions (labels : Labels) (cfg : Config) (testIdx : List ℕ) : Option (List ℕ) := do
  let base : Row → Bool := fun r => testIdx.contains r.subject_idx
  let m : Row → Bool ←
    if ¬cfg.with_damaged_actions ∧ cfg.kind = "human36m" then do
      let s9 ← listIndex labels.subject_names "S9"
      let dmg ← resolveAll labels.action_names damagedActionNames
      pure (fun r => base r && !(r.subject_idx == s9 && dmg.contains r.action_idx))
    else
      pure base
  pure (everyNth cfg.retain (positionsWhere m labels.table))

/-- Lines 75-138: build the filtered label table. For kind `"ama"` the table
is untouched; otherwise the train row positions (decimated by 4000) are
concatenated with the test row positions (decimated by the retention
stride) and the table is replaced by exactly those rows, in that order. -/
def buildTable (cfg : Config) (labels : Labels) : Except InitError (List Row) :=
  if cfg.kind = "ama" then .ok labels.table
  else
    match subjectSplit cfg.kind with
    | none => .error .unboundLocal
    | some (trS, teS) =>
      match resolveAll labels.subject_names trS, resolveAll labels.subject_names teS with
      | some trainIdx, some testIdx =>
        let trainPart := if cfg.train then trainPositions labels trainIdx else []
        if cfg.test ∧ cfg.retain = 0 then .error .zeroStride
        else
          match (if cfg.test then testPositions labels cfg testIdx else some []) with
          | none => .error .nameError
          | some testPart => .ok (filteredTable labels (trainPart ++ testPart))
      | _, _ => .error .nameError

/-- Lines 153-159: load the optional precomputed predictions, reorder them by
`np.argsort(indexes)`, resample them at the test retention stride, and check
that the result is aligned with the filtered table. -/
def buildPred (cfg : Config) (tableLen : ℕ) : Except InitError (Option (List Pose)) :=
  match cfg.pred with
  | none => .ok none
  | some (kp, idxs) =>
    if cfg.retain = 0 then .error .zeroStride
    else
      match applyArgsort idxs kp with
      | none => .error .indexError
      | some sorted =>
        let strided := everyNth cfg.retain sorted
        if strided.length = tableLen then .ok (some strided) else .error .predLenMismatch

/-- `MultiViewDataset.__init__` (lines 55-159). -/
def init (cfg : Config) (labels : Labels) : Except InitError Dataset :=
  if ¬(cfg.train ∨ cfg.test) then .error .noSplit
  else if ¬allowedKinds.contains cfg.kind then .error .badKind
  else if ¬cfg.ignore_cameras.all (· < labels.camera_names.length) then .error .badIgnoreCamera
  else
    match buildTable cfg labels with
    | .error e => .error e
    | .ok table =>
      match buildPred cfg table.length with
      | .error e => .error e
      | .ok pred =>
        .ok { kind := cfg.kind
              labels := { labels with table := table }
              ignore_cameras := cfg.ignore_cameras
              num_keypoints := numKeypointsOf cfg.kind
              keypoints_3d_pred := pred }

/-- `MultiViewDataset.__len__` (lines 161-162). -/
def datasetLen (d : Dataset) : ℕ := d.labels.table.length

/-! ### Python dictionaries (insertion-ordered association lists) -/

/-- A Python `dict` with string keys: an association list whose keys are
unique (insertion replaces, deletion removes the entry). -/
abbrev Dict (α : Type) : Type := List (String × α)

/-- `d[k]`, returning `none` instead of raising `KeyError`. -/
def dget {α : Type} : Dict α → String → Option α
  | [], _ => none
  | (k, v) :: t, key => if k = key then some v else dget t key

/-- `d[k] = v`: replace in place when the key is present, append otherwise. -/
def dinsert {α : Type} : Dict α → String → α → Dict α
  | [], key, v => [(key, v)]
  | (k, w) :: t, key, v => if k = key then (key, v) :: t else (k, w) :: dinsert t key v

/-- `del d[k]`: `none` models the `KeyError` on a missing key. -/
def derase {α : Type} : Dict α → String → Option (Dict α)
  | [], _ => none
  | (k, v) :: t, key => if k = key then some t else (derase t key).map ((k, v) :: ·)

/-- `{k: f(v) for k, v in d.items()}` done in place (lines 296-297). -/
def dmap {α β : Type} (f : α → β) (d : Dict α) : Dict β := d.map (fun p => (p.1, f p.2))

/-! ### Python string helpers (modelled on the character lists) -/

/-- Python `needle in hay` on strings (substring test). -/
def containsSub (needle : List Char) : List Char → Bool
  | [] => needle.isEmpty
  | c :: rest => needle.isPrefixOf (c :: rest) || containsSub needle rest

/-- Python `s.endswith(t)`. -/
def strEndsWith (s t : String) : Bool := t.data.isSuffixOf s.data

/-- Python `s[:-n]` for `n ≤ len(s)`. -/
def strDropLast (s : String) (n : ℕ) : String := ⟨s.data.take (s.data.length - n)⟩

/-! ### The evaluator (`evaluate_using_per_pose_error`, lines 266-310) -/

/-- A `{'total_loss': …, 'frame_count': …}` accumulator (lines 271-273). The
scalar type is kept generic (a division ring) so that the aggregation
stays executable; the evaluator instantiates it at `ℝ`, the type of the
per-pose errors. -/
structure RawScore (K : Type) where
  total : K
  count : ℕ

/-- `total_loss / frame_count` (line 297): `none` models the `nan` produced
by the `0.0 / 0` division of an empty group. -/
def divNaN {K : Type} [DivisionRing K] (t : K) (c : ℕ) : Option K :=
  if c = 0 then none else some (t / c)

/-- `per_pose_error[mask]`: the error entries at the `true` positions. -/
def maskSelect {K : Type} (ppe : List K) (mask : List Bool) : List K :=
  ((ppe.zip mask).filter (·.2)).map (·.1)

/-- The boolean action mask `(table['action_idx'] == a) & mask` (line 276). -/
def actionMask (d : Dataset) (a : ℕ) (mask : List Bool) : List Bool :=
  List.zipWith (fun r m => (r.action_idx == a) && m) d.labels.table mask

/-- The action names that end in `"-1"`, with the suffix stripped (lines 282-283). -/
def baseNames (d : Dataset) : List String :=
  (d.labels.action_names.filter (fun n => strEndsWith n "-1")).map (fun n => strDropLast n 2)

/-- The merge loop body (lines 285-294): read and delete the two per-trial
entries and insert their combined score. `none` models the `KeyError` on a
missing trial entry. -/
def mergeTrials {K : Type} [DivisionRing K] (sc : Dict (RawScore K)) (base : String) :
    Option (Dict (RawScore K)) :=
  Option.bind (dget sc (base ++ "-1")) (fun s1 =>
  Option.bind (derase sc (base ++ "-1")) (fun sc1 =>
  Option.bind (dget sc1 (base ++ "-2")) (fun s2 =>
  Option.bind (derase sc1 (base ++ "-2")) (fun sc2 =>
  some (dinsert sc2 base ⟨s1.total + s2.total, s1.count + s2.count⟩)))))

/-- The `{'total_loss': …, 'frame_count': …}` entry of one action (lines
277-280): sum and count of the masked per-pose errors of action `a`. -/
def selScore {K : Type} [DivisionRing K] (d : Dataset) (ppe : List K) (mask : List Bool)
    (a : ℕ) : RawScore K :=
  ⟨(maskSelect ppe (actionMask d a mask)).sum, (maskSelect ppe (actionMask d a mask)).length⟩

/-- The per-action accumulator after the loop of lines 275-280: the
`'Average'` entry followed by one insertion per action index. -/
def rangeScores {K : Type} [DivisionRing K] (d : Dataset) (ppe : List K) (mask : List Bool) :
    Dict (RawScore K) :=
  (List.range d.labels.action_names.length).foldl
    (fun sc a => dinsert sc (d.labels.action_names.getD a "") (selScore d ppe mask a))
    [("Average", ⟨(maskSelect ppe mask).sum, mask.count true⟩)]

/-- `evaluate_by_actions` (lines 267-299). The result maps each action name
(and `'Average'`) to its mean per-pose error, `none` standing for `nan`.
The outer `Option` models the numpy shape errors (mask length mismatches)
and the merge-loop `KeyError`. -/
def evaluateByActions {K : Type} [DivisionRing K] (d : Dataset) (ppe : List K)
    (mask0 : Option (List Bool)) : Option (Dict (Option K)) :=
  let mask := mask0.getD (List.replicate ppe.length true)
  if mask.length = ppe.length ∧ d.labels.table.length = mask.length then
    Option.bind (ofoldl mergeTrials (rangeScores d ppe mask) (baseNames d)) (fun scores2 =>
      some (dmap (fun v => divNaN v.total v.count) scores2))
  else none

/-- `evaluate_using_per_pose_error` (lines 266-310): the `'Average'` entry and
one entry per subject name, each a per-action score dictionary. -/
def evaluateUsingPerPoseError {K : Type} [DivisionRing K] (d : Dataset) (ppe : List K) :
    Option (Dict (Dict (Option K))) :=
  Option.bind (evaluateByActions d ppe none) (fun avg =>
  ofoldl
    (fun sc i =>
      Option.bind
        (evaluateByActions d ppe (some (d.labels.table.map (fun r => r.subject_idx == i))))
        (fun s => some (dinsert sc (d.labels.subject_names.getD i "") s)))
    [("Average", avg)]
    (List.range d.labels.subject_names.length))

/-! ### The evaluator (`evaluate`, lines 312-370) -/

/-- Per-joint Euclidean distance `np.sqrt(((a - b) ** 2).sum())` in mm. -/
noncomputable def jointDist (a b : Vec3) : ℝ :=
  Real.sqrt (((a.x - b.x) ^ 2 + (a.y - b.y) ^ 2 + (a.z - b.z) ^ 2 : ℚ) : ℝ)

/-- Mean over joints of the per-joint distance (one entry of
`np.sqrt(((gt - pred) ** 2).sum(2)).mean(1)`). `none` models the numpy
error on mismatched joint counts and the `nan` mean of an empty axis. -/
noncomputable def posePairError (g p : Pose) : Option ℝ :=
  if g.length = p.length ∧ g.length ≠ 0 then
    some ((List.zipWith jointDist g p).sum / g.length)
  else none

/-- Per-pose mean joint error of two equally-long pose arrays. -/
noncomputable def pairErrors (g p : List Pose) : Option (List ℝ) :=
  if g.length = p.length then omap (fun q => posePairError q.1 q.2) (g.zip p) else none

/-- `keypoints_gt = self.labels['table']['keypoints'][:, :self.num_keypoints]`
(line 313). -/
def gtOf (d : Dataset) : List Pose :=
  d.labels.table.map (fun r => r.keypoints.take d.num_keypoints)

/-- Restrict a pose to the joints listed in `js` (`arr[:, js]`); `none`
models the `IndexError` on an out-of-range joint. -/
def selectJoints (js : List ℕ) (p : Pose) : Option Pose := omap p.get? js

/-- `arr - arr[:, root:root+1, :]` for one pose: subtract the root joint from
every joint. `none` models the empty-slice shape error when the pose has no
joint at `root`. -/
def relativize (root : ℕ) (p : Pose) : Option Pose :=
  (p.get? root).map (fun r => p.map (fun a => a.sub r))

/-- Joint tables of the `transfer_*` branch (lines 320-324). -/
def human36mJoints : List ℕ := [10, 11, 15, 14, 1, 4]

/-- CMU-side joint table of the `transfer_cmu_to_human36m` branch (line 324). -/
def cmuJoints : List ℕ := [10, 8, 9, 7, 14, 13]

/-- HumanEva evaluation joints on the Human3.6M side (line 338). -/
def h36mEvalIdx : List ℕ := [4, 1, 13, 12, 5, 0, 6, 8]

/-- HumanEva evaluation joints on the HumanEva side (line 339). -/
def hevaEvalIdx : List ℕ := [11, 15, 2, 6, 13, 17, 1, 0]

/-- Lines 319-327: the optional cross-skeleton joint restriction applied to
ground truth and predictions before any error computation. -/
def prepTransfer (pred gt0 : List Pose) (tc th : Bool) : Option (List Pose × List Pose) :=
  if tc || th then
    Option.bind (omap (selectJoints human36mJoints) gt0) (fun gt =>
    Option.bind (omap (selectJoints (if th then human36mJoints else cmuJoints)) pred) (fun pr =>
    some (gt, pr)))
  else some (gt0, pred)

/-- Lines 329-346: the HumanEva joint restriction applied for the absolute
error (`keypoints_gt_tmp` / `keypoints_3d_predicted_tmp`). -/
def prepHumanEva (d : Dataset) (gt pr : List Pose) : Option (List Pose × List Pose) :=
  if d.kind = "humaneva" then
    Option.bind (omap (selectJoints hevaEvalIdx) gt) (fun g =>
    Option.bind (omap (selectJoints h36mEvalIdx) pr) (fun p =>
    some (g, p)))
  else some (gt, pr)

/-- Lines 351-363: the relative per-pose error. Both arrays are root-
relativized and then paired row by row — `idx` is never applied here. -/
noncomputable def relPart (d : Dataset) (gt pr : List Pose) (root : ℕ) : Option (List ℝ) :=
  Option.bind (omap (relativize root) gt) (fun gtRel =>
  Option.bind (omap (relativize root) pr) (fun prRel =>
  if d.kind = "humaneva" then
    Option.bind (omap (selectJoints hevaEvalIdx) gtRel) (fun g =>
    Option.bind (omap (selectJoints h36mEvalIdx) prRel) (fun p =>
    pairErrors g p))
  else pairErrors gtRel prRel))

/-- Lines 313-363 of `evaluate`: the absolute per-pose error array (line 349)
and the relative per-pose error array (lines 357-363). The absolute error
indexes the ground truth by `idx`; the relative error pairs table rows with
prediction rows positionally and never uses `idx`. -/
noncomputable def perPoseErrors (d : Dataset) (pred : List Pose) (idx : List ℕ)
    (tc th : Bool) : Option (List ℝ × List ℝ) :=
  Option.bind (prepTransfer pred (gtOf d) tc th) (fun q =>
  Option.bind (prepHumanEva d q.1 q.2) (fun qT =>
  Option.bind (omap qT.1.get? idx) (fun gtAt =>
  Option.bind (pairErrors gtAt qT.2) (fun errAbs =>
  Option.bind (relPart d q.1 q.2 (if tc || th then 0 else 6)) (fun errRel =>
  some (errAbs, errRel))))))

/-- `MultiViewDataset.evaluate` (lines 312-370): the scalar score (`none`
standing for `nan`) and the absolute and relative breakdowns. -/
noncomputable def evaluate (d : Dataset) (pred : List Pose) (idx : List ℕ)
    (tc th : Bool) : Option (Option ℝ × Dict (Dict (Option ℝ)) × Dict (Dict (Option ℝ))) :=
  Option.bind (perPoseErrors d pred idx tc th) (fun e =>
  Option.bind (evaluateUsingPerPoseError d e.1) (fun bAbs =>
  Option.bind (evaluateUsingPerPoseError d e.2) (fun bRel =>
  Option.bind (dget bRel "Average") (fun avgDict =>
  Option.bind (dget avgDict "Average") (fun score =>
  some (score, bAbs, bRel))))))

/-! ### The sample materializer (`__getitem__`, lines 164-264) -/

/-- One surviving camera of a sample: its index, its name and the
left-top-right-bottom bounding box loaded for it. -/
structure CameraEntry where
  idx : ℕ
  name : String
  ltrb : ℚ × ℚ × ℚ × ℚ
  deriving DecidableEq, Repr

/-- The TLBR→LTRB reorder `bbox[[1, 0, 3, 2]]` (line 185). -/
def tlbrToLtrb : ℚ × ℚ × ℚ × ℚ → ℚ × ℚ × ℚ × ℚ :=
  fun b => (b.2.1, b.1, b.2.2.2, b.2.2.1)

/-- The kind-`"ama"` per-action camera skip (lines 176-182). -/
def amaSkip (kind action camera_name : String) : Bool :=
  kind = "ama" &&
    (if containsSub "march".data action.data || containsSub "squat".data action.data then
      camera_name == "7"
    else
      camera_name == "5")

/-- The camera loop of `__getitem__` (lines 173-189): for each camera in
table order, skip it when it is in the ignore list, when the `"ama"`
convention skips it for this action, or when `bbox[2] - bbox[0]` of the
LTRB box — the quantity the source calls `bbox_height`, which is in fact
`right - left` — is zero; keep it otherwise. `none` models the
`IndexError` when the row stores no box for a considered camera. -/
def cameraEntriesAux (d : Dataset) (shot : Row) (action : String) :
    List (ℕ × String) → Option (List CameraEntry)
  | [] => some []
  | (ci, nm) :: rest =>
    if d.ignore_cameras.contains ci then cameraEntriesAux d shot action rest
    else if amaSkip d.kind action nm then cameraEntriesAux d shot action rest
    else
      match shot.bbox_by_camera_tlbr.get? ci with
      | none => none
      | some tlbr =>
        let bbox := tlbrToLtrb tlbr
        if bbox.2.2.1 - bbox.1 = 0 then cameraEntriesAux d shot action rest
        else (cameraEntriesAux d shot action rest).map (⟨ci, nm, bbox⟩ :: ·)

/-- The surviving cameras of a sample, in camera-table order. -/
def cameraEntries (d : Dataset) (shot : Row) (action : String) : Option (List CameraEntry) :=
  cameraEntriesAux d shot action (enumList d.labels.camera_names)

/-- The sample record returned by `__getitem__`. A loaded image is
represented by its (camera index, camera name) token; a camera object by
the (subject-or-action row key, camera index, camera name) triple used to
address the raw parameter table; the recorded box is the pre-scale LTRB
box (`scale_bbox` is an external utility, out of scope). -/
structure Sample where
  images : List (ℕ × String)
  detections : List (ℚ × ℚ × ℚ × ℚ)
  cameras : List (ℕ × ℕ × String)
  proj_matrices : List (ℕ × ℕ × String)
  keypoints_3d : List (Vec3 × ℚ)
  cuboid_base : Option Vec3
  indexes : ℕ
  subject : Option String
  action : String
  frame_idx : ℕ
  pred_keypoints_3d : Option Pose
  deriving Repr

/-- The intermediate values gathered by `__getitem__` before it assembles
the returned record. -/
structure SampleParts where
  shot : Row
  subject : Option String
  action : String
  entries : List CameraEntry
  cuboid_base : Option Vec3
  predkp : Option Pose

/-- Lines 168-169: derive the subject name (skipped for `"ama"`); `none`
models the `IndexError` on an out-of-range subject index. -/
def subjectOf (d : Dataset) (shot : Row) : Option (Option String) :=
  if d.kind ≠ "ama" then (d.labels.subject_names.get? shot.subject_idx).map some
  else some none

/-- Lines 246-251: the cuboid base point `keypoints_3d[6, :3]`, built for the
`"human36m"` kind only; `none` models the `IndexError` when the padded
keypoint array has no row 6. -/
def cuboidOf (d : Dataset) (shot : Row) : Option (Option Vec3) :=
  if d.kind = "human36m" then
    ((((shot.keypoints.take d.num_keypoints).map (fun v => (v, (1 : ℚ)))).get? 6).map
      (fun p => some p.1))
  else some none

/-- Lines 260-261: the precomputed prediction attached at the same index. -/
def predOf (d : Dataset) (idx : ℕ) : Option (Option Pose) :=
  match d.keypoints_3d_pred with
  | none => some none
  | some l => (l.get? idx).map some

/-- The fallible lookups of `__getitem__` (lines 164-264): the table row,
the subject name (except for `"ama"`), the action name, the per-camera
loop, the cuboid base joint (`"human36m"` only) and the precomputed
prediction. `none` models the Python `IndexError`s; the image files are
assumed to exist (file I/O is out of scope). -/
def collectParts (d : Dataset) (idx : ℕ) : Option SampleParts :=
  Option.bind (d.labels.table.get? idx) (fun shot =>
  Option.bind (subjectOf d shot) (fun subject =>
  Option.bind (d.labels.action_names.get? shot.action_idx) (fun action =>
  Option.bind (cameraEntries d shot action) (fun entries =>
  Option.bind (cuboidOf d shot) (fun cuboid_base =>
  Option.bind (predOf d idx) (fun predkp =>
  some ⟨shot, subject, action, entries, cuboid_base, predkp⟩))))))

/-- Assembly of the sample record from the gathered parts (lines 218-262):
one entry is appended to each per-camera sequence for every surviving
camera, in camera-table order. -/
def buildSample (d : Dataset) (idx : ℕ) (q : SampleParts) : Sample :=
  { images := q.entries.map (fun e => (e.idx, e.name))
    detections := q.entries.map (·.ltrb)
    cameras := q.entries.map
      (fun e => (if d.kind = "ama" then q.shot.action_idx else q.shot.subject_idx, e.idx, e.name))
    proj_matrices := q.entries.map
      (fun e => (if d.kind = "ama" then q.shot.action_idx else q.shot.subject_idx, e.idx, e.name))
    keypoints_3d := (q.shot.keypoints.take d.num_keypoints).map (fun v => (v, (1 : ℚ)))
    cuboid_base := q.cuboid_base
    indexes := idx
    subject := q.subject
    action := q.action
    frame_idx := q.shot.frame_idx
    pred_keypoints_3d := q.predkp }

/-- `MultiViewDataset.__getitem__` (lines 164-264). -/
def getitem (d : Dataset) (idx : ℕ) : Option Sample :=
  (collectParts d idx).map (buildSample d idx)

/-! ### Generic lemmas about the list and dictionary helpers -/

theorem omap_eq_some_cons {α β : Type} {f : α → Option β} {a : α} {t : List α} {l : List β} :
    omap f (a :: t) = some l ↔ ∃ b bs, f a = some b ∧ omap f t = some bs ∧ l = b :: bs := by
  cases hfa : f a <;> cases hft : omap f t <;>
    simp [omap, hfa, hft, eq_comm]

theorem omap_length {α β : Type} {f : α → Option β} :
    ∀ {l : List α} {l2 : List β}, omap f l = some l2 → l2.length = l.length := by
  intro l
  induction l with
  | nil => intro l2 h; simp [omap] at h; simp [← h]
  | cons a t ih =>
    intro l2 h
    rcases omap_eq_some_cons.mp h with ⟨b, bs, _, hbs, rfl⟩
    simp [ih hbs]

theorem omap_mem {α β : Type} {f : α → Option β} :
    ∀ {l : List α} {l2 : List β}, omap f l = some l2 →
      ∀ b ∈ l2, ∃ a ∈ l, f a = some b := by
  intro l
  induction l with
  | nil => intro l2 h; simp [omap] at h; subst h; intro b hb; simp at hb
  | cons a t ih =>
    intro l2 h b hb
    rcases omap_eq_some_cons.mp h with ⟨c, bs, hfa, hbs, rfl⟩
    rcases List.mem_cons.mp hb with rfl | hb2
    · exact ⟨a, by simp, hfa⟩
    · rcases ih hbs b hb2 with ⟨a2, ha2, hfa2⟩
      exact ⟨a2, by simp [ha2], hfa2⟩

theorem omap_exists {α β : Type} {f : α → Option β} :
    ∀ {l : List α}, (∀ a ∈ l, (f a).isSome) → ∃ l2, omap f l = some l2 := by
  intro l
  induction l with
  | nil => intro _; exact ⟨[], rfl⟩
  | cons a t ih =>
    intro h
    rcases ih (fun x hx => h x (by simp [hx])) with ⟨bs, hbs⟩
    rcases Option.isSome_iff_exists.mp (h a (by simp)) with ⟨b, hb⟩
    exact ⟨b :: bs, by simp [omap, hb, hbs]⟩

theorem mem_enumFrom2 {α : Type} :
    ∀ {l : List α} {k : ℕ} {p : ℕ × α}, p ∈ enumFrom2 k l →
      k ≤ p.1 ∧ l.get? (p.1 - k) = some p.2 := by
  intro l
  induction l with
  | nil => intro k p h; simp [enumFrom2] at h
  | cons a t ih =>
    intro k p h
    rcases List.mem_cons.mp h with rfl | h2
    · simp
    · rcases ih h2 with ⟨hk, hget⟩
      refine ⟨by omega, ?_⟩
      have : p.1 - k = (p.1 - (k + 1)) + 1 := by omega
      rw [this]
      simpa using hget

theorem mem_everyNth {α : Type} {n : ℕ} {l : List α} {x : α} (h : x ∈ everyNth n l) :
    x ∈ l := by
  rcases List.mem_map.mp h with ⟨p, hp, rfl⟩
  have hmem := List.mem_filter.mp hp |>.1
  have hg := (mem_enumFrom2 (l := l) (k := 0) hmem).2
  rw [Nat.sub_zero] at hg
  exact List.get?_mem hg

theorem positionsFrom_spec {α : Type} {f : α → Bool} :
    ∀ {l : List α} {k p : ℕ}, p ∈ positionsFrom f k l →
      k ≤ p ∧ ∃ r, l.get? (p - k) = some r ∧ f r = true := by
  intro l
  induction l with
  | nil => intro k p h; simp [positionsFrom] at h
  | cons a t ih =>
    intro k p h
    by_cases hfa : f a
    · simp only [positionsFrom, hfa, if_true] at h
      rcases List.mem_cons.mp h with rfl | h2
      · exact ⟨le_refl _, a, by simp, hfa⟩
      · rcases ih h2 with ⟨hk, r, hget, hfr⟩
        refine ⟨by omega, r, ?_, hfr⟩
        have : p - k = (p - (k + 1)) + 1 := by omega
        rw [this]; simpa using hget
    · simp only [positionsFrom, hfa, if_false] at h
      rcases ih h with ⟨hk, r, hget, hfr⟩
      refine ⟨by omega, r, ?_, hfr⟩
      have : p - k = (p - (k + 1)) + 1 := by omega
      rw [this]; simpa using hget

theorem positionsWhere_spec {α : Type} {f : α → Bool} {l : List α} {p : ℕ}
    (h : p ∈ positionsWhere f l) : ∃ r, l.get? p = some r ∧ f r = true := by
  rcases positionsFrom_spec h with ⟨-, r, hget, hfr⟩
  exact ⟨r, by simpa using hget, hfr⟩

theorem positionsWhere_lt {α : Type} {f : α → Bool} {l : List α} {p : ℕ}
    (h : p ∈ positionsWhere f l) : p < l.length := by
  rcases positionsWhere_spec h with ⟨r, hget, -⟩
  exact List.get?_eq_some.mp hget |>.1

theorem filteredTable_append (labels : Labels) (a b : List ℕ) :
    filteredTable labels (a ++ b) = filteredTable labels a ++ filteredTable labels b :=
  List.filterMap_append a b _

theorem filteredTable_length {labels : Labels} :
    ∀ {pos : List ℕ}, (∀ p ∈ pos, p < labels.table.length) →
      (filteredTable labels pos).length = pos.length := by
  intro pos
  induction pos with
  | nil => intro _; rfl
  | cons p t ih =>
    intro h
    have hp : p < labels.table.length := h p (by simp)
    have hget : labels.table.get? p = some (labels.table.get ⟨p, hp⟩) :=
      List.get?_eq_some.mpr ⟨hp, rfl⟩
    have ht := ih (fun q hq => h q (by simp [hq]))
    simp only [filteredTable, List.filterMap_cons, hget, List.length_cons] at *
    omega

theorem filteredTable_mem {labels : Labels} {pos : List ℕ} {r : Row}
    (h : r ∈ filteredTable labels pos) : ∃ p ∈ pos, labels.table.get? p = some r :=
  List.mem_filterMap.mp h

theorem dget_mem {α : Type} : ∀ {dd : Dict α} {k : String} {v : α},
    dget dd k = some v → (k, v) ∈ dd := by
  intro dd
  induction dd with
  | nil => intro k v h; simp [dget] at h
  | cons q t ih =>
    intro k v h
    rcases q with ⟨k2, v2⟩
    simp only [dget] at h
    split at h
    · next heq =>
      subst heq
      rw [← Option.some.inj h]
      exact List.mem_cons_self _ _
    · exact List.mem_cons_of_mem _ (ih h)

theorem mem_dinsert {α : Type} : ∀ {dd : Dict α} {k : String} {v : α} {p : String × α},
    p ∈ dinsert dd k v → p = (k, v) ∨ p ∈ dd := by
  intro dd
  induction dd with
  | nil => intro k v p h; simp [dinsert] at h; simp [h]
  | cons q t ih =>
    intro k v p h
    rcases q with ⟨k2, v2⟩
    by_cases hk : k2 = k
    · simp only [dinsert, hk, if_true] at h
      rcases List.mem_cons.mp h with rfl | h2
      · simp
      · simp [h2]
    · simp only [dinsert, hk, if_false] at h
      rcases List.mem_cons.mp h with rfl | h2
      · simp
      · rcases ih h2 with h3 | h3
        · simp [h3]
        · simp [h3]

theorem derase_subset {α : Type} : ∀ {dd dd2 : Dict α} {k : String},
    derase dd k = some dd2 → ∀ p ∈ dd2, p ∈ dd := by
  intro dd
  induction dd with
  | nil => intro dd2 k h; simp [derase] at h
  | cons q t ih =>
    intro dd2 k h p hp
    rcases q with ⟨k2, v2⟩
    by_cases hk : k2 = k
    · simp only [derase, hk, if_true, Option.some.injEq] at h
      simp [← h] at hp
      simp [hp]
    · simp only [derase, hk, if_false] at h
      cases ht : derase t k with
      | none => simp [ht] at h
      | some t2 =>
        have h2 : (k2, v2) :: t2 = dd2 := by simpa [ht] using h
        subst h2
        rcases List.mem_cons.mp hp with rfl | h3
        · simp
        · simp [ih ht p h3]

theorem mem_dmap {α β : Type} {f : α → β} {dd : Dict α} {p : String × β}
    (h : p ∈ dmap f dd) : ∃ q ∈ dd, p = (q.1, f q.2) := by
  rcases List.mem_map.mp h with ⟨q, hq, rfl⟩
  exact ⟨q, hq, rfl⟩

theorem ofoldl_preserve {σ β : Type} (P : σ → Prop) (step : σ → β → Option σ)
    (hstep : ∀ s b s2, step s b = some s2 → P s → P s2) :
    ∀ {l : List β} {s s2 : σ}, ofoldl step s l = some s2 → P s → P s2 := by
  intro l
  induction l with
  | nil => intro s s2 h hs; simp [ofoldl] at h; exact h ▸ hs
  | cons b t ih =>
    intro s s2 h hs
    cases hsb : step s b with
    | none => simp [ofoldl, hsb] at h
    | some s3 =>
      simp only [ofoldl, hsb] at h
      exact ih h (hstep s b s3 hsb hs)

theorem foldl_preserve {σ β : Type} (P : σ → Prop) (step : σ → β → σ)
    (hstep : ∀ s b, P s → P (step s b)) :
    ∀ {l : List β} {s : σ}, P s → P (l.foldl step s) := by
  intro l
  induction l with
  | nil => intro s hs; exact hs
  | cons b t ih => intro s hs; exact ih (hstep s b hs)

/-- Inversion of a successful construction: the three asserts passed, the
table was built by `buildTable`, the predictions by `buildPred`, and the
dataset is the record of line 59-70 state. -/
theorem init_ok_spec {cfg : Config} {labels : Labels} {d : Dataset}
    (h : init cfg labels = .ok d) :
    (cfg.train ∨ cfg.test) ∧ allowedKinds.contains cfg.kind = true ∧
      cfg.ignore_cameras.all (· < labels.camera_names.length) = true ∧
      ∃ table pr, buildTable cfg labels = .ok table ∧ buildPred cfg table.length = .ok pr ∧
        d = ⟨cfg.kind, { labels with table := table }, cfg.ignore_cameras,
             numKeypointsOf cfg.kind, pr⟩ := by
  unfold init at h
  split at h
  · simp at h
  next h1 =>
  split at h
  · simp at h
  next h2 =>
  split at h
  · simp at h
  next h3 =>
  split at h
  · simp at h
  next table heq =>
  split at h
  · simp at h
  next pr heq2 =>
  refine ⟨not_not.mp h1, ?_, ?_, table, pr, heq, heq2, (Except.ok.inj h).symm⟩
  · by_contra hc
    exact h2 (by simpa using hc)
  · by_contra hc
    exact h3 (by simpa using hc)

/-- Inversion of a successful `collectParts`: each fallible lookup succeeded
with the recorded part. -/
theorem collectParts_spec {d : Dataset} {i : ℕ} {parts : SampleParts}
    (h : collectParts d i = some parts) :
    d.labels.table.get? i = some parts.shot ∧
    subjectOf d parts.shot = some parts.subject ∧
    d.labels.action_names.get? parts.shot.action_idx = some parts.action ∧
    cameraEntries d parts.shot parts.action = some parts.entries := by
  simp only [collectParts, Option.bind_eq_some] at h
  rcases h with ⟨shot, hshot, subject, hsub, action, hact, entries, hent, cb, hcb, pk, hpk, hparts⟩
  obtain rfl := Option.some.inj hparts
  exact ⟨hshot, hsub, hact, hent⟩

/-- A lookup past the table length makes `collectParts` fail. -/
theorem collectParts_lt {d : Dataset} {i : ℕ} {parts : SampleParts}
    (h : collectParts d i = some parts) : i < datasetLen d :=
  (List.get?_eq_some.mp (collectParts_spec h).1).1

/-- A returned sample is the assembly of successfully gathered parts. -/
theorem getitem_inv {d : Dataset} {i : ℕ} {s : Sample} (h : getitem d i = some s) :
    ∃ parts, collectParts d i = some parts ∧ s = buildSample d i parts := by
  rcases Option.map_eq_some'.mp h with ⟨parts, hp, hs⟩
  exact ⟨parts, hp, hs.symm⟩

/-- A returned sample records the queried index, and a query can only
succeed inside the dataset length. -/
theorem getitem_indexes {d : Dataset} {i : ℕ} {s : Sample}
    (h : getitem d i = some s) : s.indexes = i ∧ i < datasetLen d := by
  rcases getitem_inv h with ⟨parts, hp, rfl⟩
  exact ⟨rfl, collectParts_lt hp⟩

/-! ### The camera loop: which cameras survive -/

/-- The condition under which the camera loop keeps a camera for a shot:
not ignored, not skipped by the `"ama"` per-action convention, and its
stored box exists and has nonzero `bbox[2] - bbox[0]` in LTRB layout
(i.e. nonzero width). -/
def includeCam (d : Dataset) (shot : Row) (action : String) (p : ℕ × String) : Bool :=
  !d.ignore_cameras.contains p.1 && !amaSkip d.kind action p.2 &&
    (match shot.bbox_by_camera_tlbr.get? p.1 with
     | none => false
     | some tlbr =>
       if (tlbrToLtrb tlbr).2.2.1 - (tlbrToLtrb tlbr).1 = 0 then false else true)

/-- `includeCam` is false for an ignored camera. -/
theorem includeCam_false_of_ignored {d : Dataset} {shot : Row} {action : String}
    {ci : ℕ} {nm : String} (hig : d.ignore_cameras.contains ci = true) :
    includeCam d shot action (ci, nm) = false := by
  simp only [includeCam, hig, Bool.not_true, Bool.false_and]

/-- `includeCam` is false for a camera skipped by the `"ama"` convention. -/
theorem includeCam_false_of_ama {d : Dataset} {shot : Row} {action : String}
    {ci : ℕ} {nm : String} (hama : amaSkip d.kind action nm = true) :
    includeCam d shot action (ci, nm) = false := by
  simp only [includeCam, hama, Bool.not_true, Bool.and_false, Bool.false_and]

/-- `includeCam` when the camera has a stored box. -/
theorem includeCam_of_box {d : Dataset} {shot : Row} {action : String}
    {ci : ℕ} {nm : String} {tlbr : ℚ × ℚ × ℚ × ℚ}
    (hbox : shot.bbox_by_camera_tlbr.get? ci = some tlbr) :
    includeCam d shot action (ci, nm) =
      (!d.ignore_cameras.contains ci && !amaSkip d.kind action nm &&
        (if (tlbrToLtrb tlbr).2.2.1 - (tlbrToLtrb tlbr).1 = 0 then false else true)) := by
  simp only [includeCam, hbox]

/-- `includeCam` is false for a zero-width box. -/
theorem includeCam_false_of_width {d : Dataset} {shot : Row} {action : String}
    {ci : ℕ} {nm : String} {tlbr : ℚ × ℚ × ℚ × ℚ}
    (hbox : shot.bbox_by_camera_tlbr.get? ci = some tlbr)
    (hw : (tlbrToLtrb tlbr).2.2.1 - (tlbrToLtrb tlbr).1 = 0) :
    includeCam d shot action (ci, nm) = false := by
  rw [includeCam_of_box hbox, if_pos hw, Bool.and_false]

/-- `includeCam` is true for a considered camera with a nonzero-width box. -/
theorem includeCam_true_of_kept {d : Dataset} {shot : Row} {action : String}
    {ci : ℕ} {nm : String} {tlbr : ℚ × ℚ × ℚ × ℚ}
    (hig : ¬d.ignore_cameras.contains ci = true)
    (hama : ¬amaSkip d.kind action nm = true)
    (hbox : shot.bbox_by_camera_tlbr.get? ci = some tlbr)
    (hw : ¬(tlbrToLtrb tlbr).2.2.1 - (tlbrToLtrb tlbr).1 = 0) :
    includeCam d shot action (ci, nm) = true := by
  have h1 : d.ignore_cameras.contains ci = false := Bool.eq_false_iff.mpr hig
  have h2 : amaSkip d.kind action nm = false := Bool.eq_false_iff.mpr hama
  rw [includeCam_of_box hbox, if_neg hw, h1, h2]
  rfl

/-- The camera loop keeps exactly the cameras satisfying `includeCam`:
the surviving list has one entry per kept camera. -/
theorem cameraEntriesAux_length {d : Dataset} {shot : Row} {action : String} :
    ∀ {ps : List (ℕ × String)} {entries : List CameraEntry},
      cameraEntriesAux d shot action ps = some entries →
      entries.length = (ps.filter (includeCam d shot action)).length := by
  intro ps
  induction ps with
  | nil =>
    intro entries h
    obtain rfl := Option.some.inj h
    rfl
  | cons p rest ih =>
    intro entries h
    rcases p with ⟨ci, nm⟩
    rw [cameraEntriesAux] at h
    by_cases hig : d.ignore_cameras.contains ci = true
    · rw [if_pos hig] at h
      rw [ih h, List.filter_cons,
        if_neg (by rw [includeCam_false_of_ignored hig]; exact Bool.false_ne_true)]
    · rw [if_neg hig] at h
      by_cases hama : amaSkip d.kind action nm = true
      · rw [if_pos hama] at h
        rw [ih h, List.filter_cons,
          if_neg (by rw [includeCam_false_of_ama hama]; exact Bool.false_ne_true)]
      · rw [if_neg hama] at h
        cases hbox : shot.bbox_by_camera_tlbr.get? ci with
        | none =>
          rw [hbox] at h
          exact Option.noConfusion h
        | some tlbr =>
          rw [hbox] at h
          dsimp only at h
          by_cases hw : (tlbrToLtrb tlbr).2.2.1 - (tlbrToLtrb tlbr).1 = 0
          · rw [if_pos hw] at h
            rw [ih h, List.filter_cons,
              if_neg (by rw [includeCam_false_of_width hbox hw]; exact Bool.false_ne_true)]
          · rw [if_neg hw] at h
            rcases Option.map_eq_some'.mp h with ⟨rest2, hrest, rfl⟩
            rw [List.length_cons, ih hrest, List.filter_cons,
              if_pos (includeCam_true_of_kept hig hama hbox hw), List.length_cons]

/-- Membership in the surviving camera list, by camera index. -/
theorem cameraEntriesAux_mem {d : Dataset} {shot : Row} {action : String} :
    ∀ {ps : List (ℕ × String)} {entries : List CameraEntry},
      cameraEntriesAux d shot action ps = some entries →
      ∀ ci, (∃ e ∈ entries, e.idx = ci) ↔
        ∃ nm, (ci, nm) ∈ ps ∧ includeCam d shot action (ci, nm) = true := by
  intro ps
  induction ps with
  | nil =>
    intro entries h ci
    obtain rfl := Option.some.inj h
    simp
  | cons p rest ih =>
    intro entries h ci
    rcases p with ⟨cj, nm2⟩
    rw [cameraEntriesAux] at h
    by_cases hig : d.ignore_cameras.contains cj = true
    · rw [if_pos hig] at h
      rw [ih h ci]
      constructor
      · rintro ⟨nm, hmem, hinc⟩
        exact ⟨nm, by simp [hmem], hinc⟩
      · rintro ⟨nm, hmem, hinc⟩
        rcases List.mem_cons.mp hmem with heq | hmem2
        · obtain ⟨rfl, rfl⟩ := Prod.mk.injEq _ _ _ _ |>.mp heq
          rw [includeCam_false_of_ignored hig] at hinc
          exact absurd hinc Bool.false_ne_true
        · exact ⟨nm, hmem2, hinc⟩
    · rw [if_neg hig] at h
      by_cases hama : amaSkip d.kind action nm2 = true
      · rw [if_pos hama] at h
        rw [ih h ci]
        constructor
        · rintro ⟨nm, hmem, hinc⟩
          exact ⟨nm, by simp [hmem], hinc⟩
        · rintro ⟨nm, hmem, hinc⟩
          rcases List.mem_cons.mp hmem with heq | hmem2
          · obtain ⟨rfl, rfl⟩ := Prod.mk.injEq _ _ _ _ |>.mp heq
            rw [includeCam_false_of_ama hama] at hinc
            exact absurd hinc Bool.false_ne_true
          · exact ⟨nm, hmem2, hinc⟩
      · rw [if_neg hama] at h
        cases hbox : shot.bbox_by_camera_tlbr.get? cj with
        | none =>
          rw [hbox] at h
          exact Option.noConfusion h
        | some tlbr =>
          rw [hbox] at h
          dsimp only at h
          by_cases hw : (tlbrToLtrb tlbr).2.2.1 - (tlbrToLtrb tlbr).1 = 0
          · rw [if_pos hw] at h
            rw [ih h ci]
            constructor
            · rintro ⟨nm, hmem, hinc⟩
              exact ⟨nm, by simp [hmem], hinc⟩
            · rintro ⟨nm, hmem, hinc⟩
              rcases List.mem_cons.mp hmem with heq | hmem2
              · obtain ⟨rfl, rfl⟩ := Prod.mk.injEq _ _ _ _ |>.mp heq
                rw [includeCam_false_of_width hbox hw] at hinc
                exact absurd hinc Bool.false_ne_true
              · exact ⟨nm, hmem2, hinc⟩
          · rw [if_neg hw] at h
            rcases Option.map_eq_some'.mp h with ⟨rest2, hrest, rfl⟩
            constructor
            · rintro ⟨e, hmem, rfl⟩
              rcases List.mem_cons.mp hmem with rfl | hmem2
              · exact ⟨nm2, by simp, includeCam_true_of_kept hig hama hbox hw⟩
              · rcases (ih hrest e.idx).mp ⟨e, hmem2, rfl⟩ with ⟨nm, hmem3, hinc⟩
                exact ⟨nm, by simp [hmem3], hinc⟩
            · rintro ⟨nm, hmem, hinc⟩
              rcases List.mem_cons.mp hmem with heq | hmem2
              · obtain ⟨rfl, rfl⟩ := Prod.mk.injEq _ _ _ _ |>.mp heq
                exact ⟨⟨ci, nm, tlbrToLtrb tlbr⟩, by simp, rfl⟩
              · rcases (ih hrest ci).mpr ⟨nm, hmem2, hinc⟩ with ⟨e, hmem3, hidx⟩
                exact ⟨e, by simp [hmem3], hidx⟩

/-- Converse of `mem_enumFrom2`: a table entry yields an enumeration pair. -/
theorem enumFrom2_mem_of_get {α : Type} :
    ∀ {l : List α} {j : ℕ} {a : α} (k : ℕ), l.get? j = some a →
      (k + j, a) ∈ enumFrom2 k l := by
  intro l
  induction l with
  | nil => intro j a k h; simp [List.get?] at h
  | cons x xs ih =>
    intro j a k h
    cases j with
    | zero =>
      obtain rfl := Option.some.inj h
      simp [enumFrom2]
    | succ j2 =>
      have h2 := ih (k + 1) (show xs.get? j2 = some a from h)
      rw [enumFrom2]
      refine List.mem_cons_of_mem _ ?_
      rw [show k + (j2 + 1) = (k + 1) + j2 by omega]
      exact h2

/-! ### C6 / C7 — view omission in the materializer -/

/-- A 7-joint pose, all joints at the origin. -/
def poseZero : Pose := List.replicate 7 ⟨0, 0, 0⟩

/-- Follows the spec's words (claims C6 and C7): the height of a stored
TLBR box, bottom edge minus top edge. -/
def tlbrHeight (b : ℚ × ℚ × ℚ × ℚ) : ℚ := b.2.2.1 - b.1

/-- Follows the spec's words (claim C7): the number of configured cameras,
minus the ignored cameras, minus the cameras whose stored box for the
sample has zero height. -/
def specC7Len (d : Dataset) (shot : Row) : ℕ :=
  d.labels.camera_names.length - d.ignore_cameras.length -
    (shot.bbox_by_camera_tlbr.filter (fun b => tlbrHeight b == 0)).length

/-- C6 (amended): for a camera considered during materialization (a real
camera index, not ignored, not skipped by the `"ama"` convention, with a
stored box), the view is omitted from the sample's camera sequence if and
only if the box has zero *width* (right edge equals left edge in the
stored TLBR layout) — not zero height: the quantity the source calls
`bbox_height` at line 186 is `bbox[2] - bbox[0]` of the LTRB box, i.e.
`right - left`. The omission raises no error: the loop just skips. -/
theorem c6_zero_width_view_absent (d : Dataset) (i : ℕ) (s : Sample) (shot : Row)
    (action : String) (ci : ℕ) (nm : String) (tlbr : ℚ × ℚ × ℚ × ℚ)
    (h : getitem d i = some s)
    (hshot : d.labels.table.get? i = some shot)
    (hact : d.labels.action_names.get? shot.action_idx = some action)
    (hcam : d.labels.camera_names.get? ci = some nm)
    (hig : d.ignore_cameras.contains ci = false)
    (hama : amaSkip d.kind action nm = false)
    (hbox : shot.bbox_by_camera_tlbr.get? ci = some tlbr) :
    (∃ c ∈ s.cameras, c.2.1 = ci) ↔ tlbr.2.2.2 - tlbr.2.1 ≠ 0 := by
  rcases getitem_inv h with ⟨parts, hp, rfl⟩
  obtain ⟨hshot2, -, hact2, hent⟩ := collectParts_spec hp
  obtain rfl := Option.some.inj (hshot.symm.trans hshot2)
  obtain rfl := Option.some.inj (hact.symm.trans hact2)
  have hmem : (∃ c ∈ (buildSample d i parts).cameras, c.2.1 = ci) ↔
      ∃ e ∈ parts.entries, e.idx = ci := by
    constructor
    · rintro ⟨c, hc, hci⟩
      rcases List.mem_map.mp hc with ⟨e, he, rfl⟩
      exact ⟨e, he, hci⟩
    · rintro ⟨e, he, hci⟩
      exact ⟨_, List.mem_map_of_mem _ he, hci⟩
  rw [hmem, cameraEntriesAux_mem hent ci]
  constructor
  · rintro ⟨nm3, hmem3, hinc⟩
    obtain rfl : nm3 = nm := by
      have hg := (mem_enumFrom2 hmem3).2
      rw [Nat.sub_zero] at hg
      exact Option.some.inj (hg.symm.trans hcam)
    intro hw0
    rw [includeCam_false_of_width hbox (show (tlbrToLtrb tlbr).2.2.1 - (tlbrToLtrb tlbr).1 = 0
      from hw0)] at hinc
    exact Bool.false_ne_true hinc
  · intro hw
    refine ⟨nm, ?_, ?_⟩
    · have := enumFrom2_mem_of_get (l := d.labels.camera_names) 0 hcam
      simpa [enumList] using this
    · exact includeCam_true_of_kept
        (fun hc => Bool.false_ne_true (hig.symm.trans hc))
        (fun hc => Bool.false_ne_true (hama.symm.trans hc)) hbox hw

/-- A row whose only stored box is `(0, 0, 0, 10)` in TLBR: zero height
(bottom = top = 0) but width 10. -/
def rBox6 : Row :=
  { subject_idx := 0, action_idx := 0, frame_idx := 3, keypoints := poseZero
    bbox_by_camera_tlbr := [(0, 0, 0, 10)] }

/-- A one-camera dataset holding only `rBox6`. -/
def dBox6 : Dataset :=
  { kind := "totalcap"
    labels := { camera_names := ["cam0"], subject_names := ["s1"], action_names := ["A"]
                table := [rBox6] }
    ignore_cameras := []
    num_keypoints := 21
    keypoints_3d_pred := none }

/-- Counterexample to C6 as stated: the stored box of the only camera has
zero height (its bottom edge equals its top edge), yet the view is *not*
treated as absent — the sample's camera sequence keeps it, because the
code's skip test (`bbox[2] - bbox[0]` of the LTRB box) is the width. -/
theorem c6_counterexample_height_not_the_test :
    (dBox6.labels.table.get? 0).map (fun r => r.bbox_by_camera_tlbr.map tlbrHeight) =
      some [0] ∧
    (getitem dBox6 0).map (fun s => s.cameras.length) = some 1 := by
  constructor
  · norm_num [dBox6, rBox6, tlbrHeight]
  · norm_num [getitem, collectParts, dBox6, rBox6, subjectOf, cuboidOf, predOf, cameraEntries,
      cameraEntriesAux, enumList, enumFrom2, amaSkip, containsSub, tlbrToLtrb, buildSample,
      poseZero]
    decide

/-- C7 (amended): the per-camera sequences of a returned sample (images,
detections, cameras, projection matrices) all have one entry per surviving
camera, and that common length is the number of configured cameras that
are neither ignored, nor skipped by the `"ama"` per-action convention,
nor holders of a zero-*width* stored box. -/
theorem c7_sequence_lengths (d : Dataset) (i : ℕ) (s : Sample) (shot : Row) (action : String)
    (h : getitem d i = some s)
    (hshot : d.labels.table.get? i = some shot)
    (hact : d.labels.action_names.get? shot.action_idx = some action) :
    s.images.length = s.detections.length ∧
    s.images.length = s.cameras.length ∧
    s.images.length = s.proj_matrices.length ∧
    s.images.length = (enumList d.labels.camera_names).countP (includeCam d shot action) := by
  rcases getitem_inv h with ⟨parts, hp, rfl⟩
  obtain ⟨hshot2, -, hact2, hent⟩ := collectParts_spec hp
  obtain rfl := Option.some.inj (hshot.symm.trans hshot2)
  obtain rfl := Option.some.inj (hact.symm.trans hact2)
  refine ⟨by simp [buildSample], by simp [buildSample], by simp [buildSample], ?_⟩
  show (parts.entries.map _).length = _
  rw [List.length_map, cameraEntriesAux_length hent, List.countP_eq_length_filter]

/-- A row with two stored boxes: an ordinary one for camera 0 and the
zero-height, width-10 TLBR box `(0, 0, 0, 10)` for camera 1. -/
def rBox7 : Row :=
  { subject_idx := 0, action_idx := 0, frame_idx := 3, keypoints := poseZero
    bbox_by_camera_tlbr := [(0, 0, 5, 10), (0, 0, 0, 10)] }

/-- A two-camera dataset holding only `rBox7`. -/
def dBox7 : Dataset :=
  { kind := "totalcap"
    labels := { camera_names := ["cam0", "cam1"], subject_names := ["s1"], action_names := ["A"]
                table := [rBox7] }
    ignore_cameras := []
    num_keypoints := 21
    keypoints_3d_pred := none }

/-- Counterexample to C7 as stated: with two configured cameras, none
ignored, and exactly one zero-height box, the claim predicts per-camera
sequences of length `2 - 0 - 1 = 1`; the returned sample has length-2
sequences, because the zero-height (but nonzero-width) view is kept. -/
theorem c7_counterexample_length_formula :
    (getitem dBox7 0).map (fun s => s.images.length) = some 2 ∧
    (dBox7.labels.table.get? 0).map (specC7Len dBox7) = some 1 ∧
    (2 : ℕ) ≠ 1 := by
  refine ⟨?_, ?_, by decide⟩
  · norm_num [getitem, collectParts, dBox7, rBox7, subjectOf, cuboidOf, predOf, cameraEntries,
      cameraEntriesAux, enumList, enumFrom2, amaSkip, containsSub, tlbrToLtrb, buildSample,
      poseZero]
    decide
  · norm_num [dBox7, rBox7, specC7Len, tlbrHeight, List.filter_cons, List.filter_nil,
      beq_iff_eq]

/-- The parts gathered by `collectParts dBox6 0`. -/
def pBox6 : SampleParts :=
  ⟨rBox6, some "s1", "A", [⟨0, "cam0", (0, 0, 10, 0)⟩], none, none⟩

/-- The parts gathered by `collectParts dBox7 0`: both cameras survive. -/
def pBox7 : SampleParts :=
  ⟨rBox7, some "s1", "A", [⟨0, "cam0", (0, 0, 10, 5)⟩, ⟨1, "cam1", (0, 0, 10, 0)⟩], none, none⟩

/-- Witness for the amended C6 at a concrete input: the considered camera of
`dBox6` survives because its box has nonzero width. -/
theorem c6_zero_width_view_absent_witness :
    ∃ s, getitem dBox6 0 = some s ∧
      dBox6.labels.table.get? 0 = some rBox6 ∧
      dBox6.labels.action_names.get? rBox6.action_idx = some "A" ∧
      dBox6.labels.camera_names.get? 0 = some "cam0" ∧
      dBox6.ignore_cameras.contains 0 = false ∧
      amaSkip dBox6.kind "A" "cam0" = false ∧
      rBox6.bbox_by_camera_tlbr.get? 0 = some (0, 0, 0, 10) ∧
      ((∃ c ∈ s.cameras, c.2.1 = 0) ↔
        ((0, 0, 0, 10) : ℚ × ℚ × ℚ × ℚ).2.2.2 - ((0, 0, 0, 10) : ℚ × ℚ × ℚ × ℚ).2.1 ≠ 0) := by
  have hcp : collectParts dBox6 0 = some pBox6 := by
    norm_num [collectParts, dBox6, subjectOf, cuboidOf, predOf, cameraEntries, cameraEntriesAux,
      enumList, enumFrom2, amaSkip, containsSub, tlbrToLtrb, poseZero, pBox6, rBox6]
    simp +decide
  have hget : getitem dBox6 0 = some (buildSample dBox6 0 pBox6) := by
    rw [getitem, hcp]
    rfl
  exact ⟨buildSample dBox6 0 pBox6, hget, rfl, rfl, rfl, rfl, rfl, rfl,
    c6_zero_width_view_absent dBox6 0 _ rBox6 "A" 0 "cam0" (0, 0, 0, 10)
      hget rfl rfl rfl rfl rfl rfl⟩

/-- Witness for the amended C7 at a concrete input: the sample of `dBox7`
has length-2 sequences, matching the two surviving cameras. -/
theorem c7_sequence_lengths_witness :
    ∃ s, getitem dBox7 0 = some s ∧
      dBox7.labels.table.get? 0 = some rBox7 ∧
      dBox7.labels.action_names.get? rBox7.action_idx = some "A" ∧
      (s.images.length = s.detections.length ∧
        s.images.length = s.cameras.length ∧
        s.images.length = s.proj_matrices.length ∧
        s.images.length =
          (enumList dBox7.labels.camera_names).countP (includeCam dBox7 rBox7 "A")) := by
  have hcp : collectParts dBox7 0 = some pBox7 := by
    norm_num [collectParts, dBox7, subjectOf, cuboidOf, predOf, cameraEntries, cameraEntriesAux,
      enumList, enumFrom2, amaSkip, containsSub, tlbrToLtrb, poseZero, pBox7, rBox7]
    simp +decide
  have hget : getitem dBox7 0 = some (buildSample dBox7 0 pBox7) := by
    rw [getitem, hcp]
    rfl
  exact ⟨buildSample dBox7 0 pBox7, hget, rfl, rfl,
    c7_sequence_lengths dBox7 0 _ rBox7 "A" hget rfl rfl⟩

/-! ### C3 — merged-trial aggregation -/

/-- The list of per-pose errors the breakdown attributes to action index `a`
under the (optional) row mask `mask0` — the masked selection of line 277. -/
def trialSelect (d : Dataset) (ppe : List ℝ) (mask0 : Option (List Bool)) (a : ℕ) : List ℝ :=
  maskSelect ppe (actionMask d a (mask0.getD (List.replicate ppe.length true)))

/-- A plain table row carrying only an action index. -/
def rowAct (a : ℕ) : Row :=
  { subject_idx := 0, action_idx := a, frame_idx := 0, keypoints := poseZero
    bbox_by_camera_tlbr := [] }

/-! ### Dictionary lookup lemmas for the trial-merge analysis -/

/-- Keys pairwise distinct — the invariant every Python dict satisfies. -/
def DKeysNodup {α : Type} (dd : Dict α) : Prop := (dd.map Prod.fst).Nodup

theorem dget_dinsert_self {α : Type} : ∀ (dd : Dict α) (k : String) (v : α),
    dget (dinsert dd k v) k = some v := by
  intro dd
  induction dd with
  | nil => intro k v; simp [dinsert, dget]
  | cons q t ih =>
    intro k v
    rcases q with ⟨k2, w⟩
    by_cases h : k2 = k
    · simp [dinsert, dget, h]
    · simp [dinsert, dget, h, ih]

theorem dget_dinsert_ne {α : Type} : ∀ (dd : Dict α) (k n : String) (v : α), n ≠ k →
    dget (dinsert dd k v) n = dget dd n := by
  intro dd
  induction dd with
  | nil =>
    intro k n v hne
    simp [dinsert, dget, Ne.symm hne]
  | cons q t ih =>
    intro k n v hne
    rcases q with ⟨k2, w⟩
    by_cases h : k2 = k
    · subst h
      simp [dinsert, dget, Ne.symm hne]
    · by_cases h2 : k2 = n
      · simp [dinsert, dget, h, h2, hne]
      · simp [dinsert, dget, h, h2, ih _ _ _ hne]

theorem derase_of_dget {α : Type} : ∀ {dd : Dict α} {k : String} {v : α},
    dget dd k = some v → ∃ dd2, derase dd k = some dd2 := by
  intro dd
  induction dd with
  | nil => intro k v h; simp [dget] at h
  | cons q t ih =>
    intro k v h
    rcases q with ⟨k2, w⟩
    by_cases hk : k2 = k
    · exact ⟨t, by simp [derase, hk]⟩
    · simp only [dget, hk, if_false] at h
      rcases ih h with ⟨t2, ht2⟩
      exact ⟨(k2, w) :: t2, by simp [derase, hk, ht2]⟩

theorem dget_derase_ne {α : Type} : ∀ {dd dd2 : Dict α} {k n : String}, n ≠ k →
    derase dd k = some dd2 → dget dd2 n = dget dd n := by
  intro dd
  induction dd with
  | nil => intro dd2 k n _ h; simp [derase] at h
  | cons q t ih =>
    intro dd2 k n hne h
    rcases q with ⟨k2, w⟩
    by_cases hk : k2 = k
    · simp only [derase, hk, if_true, Option.some.injEq] at h
      subst h
      subst hk
      simp [dget, Ne.symm hne]
    · simp only [derase, hk, if_false] at h
      cases ht : derase t k with
      | none => rw [ht] at h; simp at h
      | some t2 =>
        rw [ht] at h
        simp only [Option.map_some'] at h
        have h2 := Option.some.inj h
        subst h2
        by_cases h3 : k2 = n
        · simp [dget, h3]
        · simp only [dget, h3, if_false]
          exact ih hne ht

theorem dget_eq_none_of_keys {α : Type} : ∀ {dd : Dict α} {k : String},
    (∀ p ∈ dd, p.1 ≠ k) → dget dd k = none := by
  intro dd
  induction dd with
  | nil => intro k _; rfl
  | cons q t ih =>
    intro k h
    rcases q with ⟨k2, w⟩
    have hk2 : k2 ≠ k := h (k2, w) (List.mem_cons_self _ _)
    simp only [dget, hk2, if_false]
    exact ih (fun p hp => h p (List.mem_cons_of_mem _ hp))

theorem dget_derase_self {α : Type} : ∀ {dd dd2 : Dict α} {k : String},
    DKeysNodup dd → derase dd k = some dd2 → dget dd2 k = none := by
  intro dd
  induction dd with
  | nil => intro dd2 k _ h; simp [derase] at h
  | cons q t ih =>
    intro dd2 k hnd h
    rcases q with ⟨k2, w⟩
    rw [DKeysNodup, List.map_cons, List.nodup_cons] at hnd
    by_cases hk : k2 = k
    · simp only [derase, hk, if_true, Option.some.injEq] at h
      subst h
      subst hk
      refine dget_eq_none_of_keys ?_
      intro p hp hpk
      have hx : p.1 ∈ t.map Prod.fst := List.mem_map_of_mem Prod.fst hp
      rw [hpk] at hx
      exact hnd.1 hx
    · simp only [derase, hk, if_false] at h
      cases ht : derase t k with
      | none => rw [ht] at h; simp at h
      | some t2 =>
        rw [ht] at h
        simp only [Option.map_some'] at h
        have h2 := Option.some.inj h
        subst h2
        simp only [dget, hk, if_false]
        exact ih hnd.2 ht

theorem derase_keysNodup {α : Type} : ∀ {dd dd2 : Dict α} {k : String},
    DKeysNodup dd → derase dd k = some dd2 → DKeysNodup dd2 := by
  intro dd
  induction dd with
  | nil => intro dd2 k _ h; simp [derase] at h
  | cons q t ih =>
    intro dd2 k hnd h
    rcases q with ⟨k2, w⟩
    rw [DKeysNodup, List.map_cons, List.nodup_cons] at hnd
    by_cases hk : k2 = k
    · simp only [derase, hk, if_true, Option.some.injEq] at h
      subst h
      exact hnd.2
    · simp only [derase, hk, if_false] at h
      cases ht : derase t k with
      | none => rw [ht] at h; simp at h
      | some t2 =>
        rw [ht] at h
        simp only [Option.map_some'] at h
        have h2 := Option.some.inj h
        subst h2
        rw [DKeysNodup, List.map_cons, List.nodup_cons]
        refine ⟨?_, ih hnd.2 ht⟩
        intro hmem
        rcases List.mem_map.mp hmem with ⟨p, hp, hpk⟩
        have hx : p.1 ∈ t.map Prod.fst := List.mem_map_of_mem Prod.fst (derase_subset ht p hp)
        rw [hpk] at hx
        exact hnd.1 hx

theorem dinsert_keysNodup {α : Type} : ∀ {dd : Dict α} {k : String} {v : α},
    DKeysNodup dd → DKeysNodup (dinsert dd k v) := by
  intro dd
  induction dd with
  | nil => intro k v _; simp [dinsert, DKeysNodup]
  | cons q t ih =>
    intro k v hnd
    rcases q with ⟨k2, w⟩
    rw [DKeysNodup, List.map_cons, List.nodup_cons] at hnd
    by_cases hk : k2 = k
    · have he : dinsert ((k2, w) :: t) k v = (k, v) :: t := by simp [dinsert, hk]
      rw [he, DKeysNodup, List.map_cons, List.nodup_cons]
      exact ⟨hk ▸ hnd.1, hnd.2⟩
    · have he : dinsert ((k2, w) :: t) k v = (k2, w) :: dinsert t k v := by simp [dinsert, hk]
      rw [he, DKeysNodup, List.map_cons, List.nodup_cons]
      refine ⟨?_, ih hnd.2⟩
      intro hmem
      rcases List.mem_map.mp hmem with ⟨p, hp, hpk⟩
      rcases mem_dinsert hp with rfl | hp2
      · exact hk hpk.symm
      · have hx : p.1 ∈ t.map Prod.fst := List.mem_map_of_mem Prod.fst hp2
        rw [hpk] at hx
        exact hnd.1 hx

theorem dget_dmap {α β : Type} (f : α → β) : ∀ (dd : Dict α) (k : String),
    dget (dmap f dd) k = (dget dd k).map f := by
  intro dd
  induction dd with
  | nil => intro k; rfl
  | cons q t ih =>
    intro k
    rcases q with ⟨k2, w⟩
    by_cases h : k2 = k
    · simp [dmap, dget, h]
    · simp only [dmap, List.map_cons, dget, h, if_false]
      exact ih k

theorem dget_foldl_dinsert_of_ne {α : Type} (κ : ℕ → String) (v : ℕ → α) :
    ∀ (is : List ℕ) (sc : Dict α) (n : String), (∀ j ∈ is, κ j ≠ n) →
      dget (is.foldl (fun sc a => dinsert sc (κ a) (v a)) sc) n = dget sc n := by
  intro is
  induction is with
  | nil => intro sc n _; rfl
  | cons a t ih =>
    intro sc n h
    rw [List.foldl_cons, ih _ _ (fun j hj => h j (List.mem_cons_of_mem _ hj)),
      dget_dinsert_ne _ _ _ _ (Ne.symm (h a (List.mem_cons_self _ _)))]

theorem dget_foldl_dinsert_mem {α : Type} (κ : ℕ → String) (v : ℕ → α) :
    ∀ (is : List ℕ) (sc : Dict α) (i : ℕ), is.Nodup → i ∈ is →
      (∀ j ∈ is, κ j = κ i → j = i) →
      dget (is.foldl (fun sc a => dinsert sc (κ a) (v a)) sc) (κ i) = some (v i) := by
  intro is
  induction is with
  | nil => intro sc i _ hi _; exact absurd hi (List.not_mem_nil _)
  | cons a t ih =>
    intro sc i hnd hi huniq
    rcases List.nodup_cons.mp hnd with ⟨ha, hndt⟩
    rw [List.foldl_cons]
    rcases List.mem_cons.mp hi with rfl | hit
    · have hne : ∀ j ∈ t, κ j ≠ κ i := by
        intro j hj hkj
        have h2 := huniq j (List.mem_cons_of_mem _ hj) hkj
        subst h2
        exact ha hj
      rw [dget_foldl_dinsert_of_ne κ v t _ _ hne, dget_dinsert_self]
    · exact ih _ i hndt hit (fun j hj hkj => huniq j (List.mem_cons_of_mem _ hj) hkj)

theorem dget_foldl_dinsert_isSome_of {α : Type} (κ : ℕ → String) (v : ℕ → α) :
    ∀ (is : List ℕ) (sc : Dict α) (n : String), (dget sc n).isSome = true →
      (dget (is.foldl (fun sc a => dinsert sc (κ a) (v a)) sc) n).isSome = true := by
  intro is
  induction is with
  | nil => intro sc n h; exact h
  | cons a t ih =>
    intro sc n h
    rw [List.foldl_cons]
    refine ih _ _ ?_
    by_cases hk : n = κ a
    · subst hk
      rw [dget_dinsert_self]
      rfl
    · rw [dget_dinsert_ne _ _ _ _ hk]
      exact h

theorem dget_foldl_dinsert_isSome_mem {α : Type} (κ : ℕ → String) (v : ℕ → α) :
    ∀ (is : List ℕ) (sc : Dict α) (i : ℕ), i ∈ is →
      (dget (is.foldl (fun sc a => dinsert sc (κ a) (v a)) sc) (κ i)).isSome = true := by
  intro is
  induction is with
  | nil => intro sc i hi; exact absurd hi (List.not_mem_nil _)
  | cons a t ih =>
    intro sc i hi
    rw [List.foldl_cons]
    rcases List.mem_cons.mp hi with rfl | hit
    · refine dget_foldl_dinsert_isSome_of κ v t _ _ ?_
      rw [dget_dinsert_self]
      rfl
    · exact ih _ _ hit

/-! ### String facts about the `-1`/`-2` trial suffixes -/

theorem strData_inj {s t : String} (h : s.data = t.data) : s = t := by
  cases s
  cases t
  exact congrArg String.mk h

theorem strAppend_cancel {x y s : String} (h : x ++ s = y ++ s) : x = y := by
  apply strData_inj
  have h2 : x.data ++ s.data = y.data ++ s.data := by
    rw [← String.data_append, ← String.data_append, h]
  exact List.append_cancel_right h2

theorem strEndsWith_append (x s : String) : strEndsWith (x ++ s) s = true := by
  rw [strEndsWith, String.data_append]
  exact List.isSuffixOf_iff_suffix.mpr (List.suffix_append _ _)

theorem strNe_of_not_endsWith {b x s : String} (hb : strEndsWith b s = false) : b ≠ x ++ s := by
  intro h
  rw [h, strEndsWith_append] at hb
  exact Bool.noConfusion hb

theorem strEndsWith_decomp {n s : String} (h : strEndsWith n s = true) :
    strDropLast n s.data.length ++ s = n := by
  rw [strEndsWith] at h
  rcases List.isSuffixOf_iff_suffix.mp h with ⟨p, hp⟩
  apply strData_inj
  show n.data.take (n.data.length - s.data.length) ++ s.data = n.data
  rw [← hp, List.length_append, Nat.add_sub_cancel, List.take_left]

theorem strEndsWith_decomp1 {n : String} (h : strEndsWith n "-1" = true) :
    strDropLast n 2 ++ "-1" = n := by
  have h2 := strEndsWith_decomp h
  rwa [show ("-1" : String).data.length = 2 from rfl] at h2

theorem strDropLast_append1 (x : String) : strDropLast (x ++ "-1") 2 = x :=
  strAppend_cancel (strEndsWith_decomp1 (strEndsWith_append x "-1"))

theorem strAppend_d1_ne_d2 (x y : String) : x ++ "-1" ≠ y ++ "-2" := by
  intro h
  have h2 : (x ++ "-1").data.reverse = (y ++ "-2").data.reverse := by rw [h]
  rw [String.data_append, String.data_append, List.reverse_append, List.reverse_append,
    show ("-1" : String).data.reverse = ['1', '-'] from rfl,
    show ("-2" : String).data.reverse = ['2', '-'] from rfl] at h2
  simp only [List.cons_append, List.nil_append] at h2
  exact absurd (List.cons.inj h2).1 (by decide)

/-! ### The index resolved by `listIndex` points at its name -/

theorem listIndex_get {l : List String} {x : String} {i : ℕ}
    (h : listIndex l x = some i) : l.get? i = some x := by
  rw [listIndex] at h
  rcases List.findIdx?_eq_some_iff_getElem.mp h with ⟨hlt, hp, _⟩
  have hx : l[i] = x := of_decide_eq_true hp
  rw [List.get?_eq_getElem?, List.getElem?_eq_getElem hlt, hx]

theorem nodup_index_inj {l : List String} (hn : l.Nodup) {i j : ℕ} {x : String}
    (hi : l.get? i = some x) (hj : l.get? j = some x) : i = j := by
  have hi2 : l[i]? = some x := by rwa [List.get?_eq_getElem?] at hi
  have hj2 : l[j]? = some x := by rwa [List.get?_eq_getElem?] at hj
  have hlt : i < l.length := by
    by_contra hge
    rw [List.getElem?_eq_none (Nat.le_of_not_lt hge)] at hi2
    exact Option.noConfusion hi2
  exact List.getElem?_inj hlt hn (hi2.trans hj2.symm)

theorem getD_of_get? {l : List String} {i : ℕ} {x : String} (h : l.get? i = some x) :
    l.getD i "" = x := by
  rw [List.getD_eq_get?, h]
  rfl

/-! ### The per-action accumulator of lines 275-280, characterized -/

theorem rangeScores_dget_at {K : Type} [DivisionRing K] {d : Dataset} {ppe : List K}
    {mask : List Bool} {n : String} {i : ℕ}
    (hnd : d.labels.action_names.Nodup)
    (hi : d.labels.action_names.get? i = some n) :
    dget (rangeScores d ppe mask) n = some (selScore d ppe mask i) := by
  have hlt : i < d.labels.action_names.length := by
    by_contra hge
    rw [List.get?_eq_getElem?, List.getElem?_eq_none (Nat.le_of_not_lt hge)] at hi
    exact Option.noConfusion hi
  have hκ : d.labels.action_names.getD i "" = n := getD_of_get? hi
  rw [rangeScores, ← hκ]
  refine dget_foldl_dinsert_mem _ _ _ _ i (List.nodup_range _) (List.mem_range.mpr hlt) ?_
  intro j hj hkj
  have hjlt : j < d.labels.action_names.length := List.mem_range.mp hj
  have haux : d.labels.action_names.getD j "" = d.labels.action_names[j] := by
    rw [List.getD_eq_get?, List.get?_eq_getElem?, List.getElem?_eq_getElem hjlt]
    rfl
  have hj2 : d.labels.action_names.get? j = some n := by
    rw [List.get?_eq_getElem?, List.getElem?_eq_getElem hjlt, ← haux, hkj, hκ]
  exact nodup_index_inj hnd hj2 hi

theorem rangeScores_isSome {K : Type} [DivisionRing K] {d : Dataset} {ppe : List K}
    {mask : List Bool} {n : String} (hn : n ∈ d.labels.action_names) :
    (dget (rangeScores d ppe mask) n).isSome = true := by
  rcases List.mem_iff_get?.mp hn with ⟨i, hi⟩
  have hlt : i < d.labels.action_names.length := by
    by_contra hge
    rw [List.get?_eq_getElem?, List.getElem?_eq_none (Nat.le_of_not_lt hge)] at hi
    exact Option.noConfusion hi
  have hκ : d.labels.action_names.getD i "" = n := getD_of_get? hi
  rw [rangeScores, ← hκ]
  exact dget_foldl_dinsert_isSome_mem _ _ _ _ i (List.mem_range.mpr hlt)

theorem rangeScores_keysNodup {K : Type} [DivisionRing K] (d : Dataset) (ppe : List K)
    (mask : List Bool) : DKeysNodup (rangeScores d ppe mask) := by
  rw [rangeScores]
  refine foldl_preserve DKeysNodup _ (fun sc a hsc => dinsert_keysNodup hsc) ?_
  rw [DKeysNodup]
  simp

/-! ### The base-name list of lines 282-283, characterized -/

theorem mem_baseNames {d : Dataset} {b : String} :
    b ∈ baseNames d ↔ (b ++ "-1") ∈ d.labels.action_names := by
  rw [baseNames]
  constructor
  · intro h
    rcases List.mem_map.mp h with ⟨n, hn, rfl⟩
    rcases List.mem_filter.mp hn with ⟨hmem, hend⟩
    rwa [strEndsWith_decomp1 hend]
  · intro h
    refine List.mem_map.mpr ⟨b ++ "-1", List.mem_filter.mpr ⟨h, strEndsWith_append b "-1"⟩, ?_⟩
    exact strDropLast_append1 b

theorem baseNames_nodup {d : Dataset} (h : d.labels.action_names.Nodup) :
    (baseNames d).Nodup := by
  rw [baseNames]
  refine List.Nodup.map_on ?_ (List.Nodup.filter _ h)
  intro x hx y hy hxy
  have hex := (List.mem_filter.mp hx).2
  have hey := (List.mem_filter.mp hy).2
  rw [← strEndsWith_decomp1 hex, ← strEndsWith_decomp1 hey, hxy]

/-! ### The merge loop of lines 285-294, characterized -/

theorem merge_fold_spec {K : Type} [DivisionRing K] :
    ∀ (B : List String) (sc : Dict (RawScore K)),
      DKeysNodup sc → B.Nodup →
      (∀ b ∈ B, strEndsWith b "-1" = false ∧ strEndsWith b "-2" = false) →
      (∀ b ∈ B, (dget sc (b ++ "-1")).isSome = true ∧ (dget sc (b ++ "-2")).isSome = true) →
      ∃ sc2, ofoldl mergeTrials sc B = some sc2 ∧
        (∀ b ∈ B, ∀ s1 s2 : RawScore K,
            dget sc (b ++ "-1") = some s1 → dget sc (b ++ "-2") = some s2 →
            dget sc2 b = some ⟨s1.total + s2.total, s1.count + s2.count⟩) ∧
        (∀ b ∈ B, dget sc2 (b ++ "-1") = none ∧ dget sc2 (b ++ "-2") = none) ∧
        (∀ n : String, (∀ b ∈ B, n ≠ b ∧ n ≠ b ++ "-1" ∧ n ≠ b ++ "-2") →
            dget sc2 n = dget sc n) := by
  intro B
  induction B with
  | nil =>
    intro sc hnd hB hends hpres
    exact ⟨sc, rfl, by simp, by simp, fun n _ => rfl⟩
  | cons b B ih =>
    intro sc hnd hB hends hpres
    obtain ⟨hp1, hp2⟩ := hpres b (List.mem_cons_self _ _)
    obtain ⟨s1, hs1⟩ := Option.isSome_iff_exists.mp hp1
    obtain ⟨s2, hs2⟩ := Option.isSome_iff_exists.mp hp2
    obtain ⟨scA, hscA⟩ := derase_of_dget hs1
    have h21 : (b ++ "-2") ≠ (b ++ "-1") := fun h => strAppend_d1_ne_d2 b b h.symm
    have hs2A : dget scA (b ++ "-2") = some s2 := by
      rw [dget_derase_ne h21 hscA]
      exact hs2
    obtain ⟨scB, hscB⟩ := derase_of_dget hs2A
    have hm : mergeTrials sc b =
        some (dinsert scB b ⟨s1.total + s2.total, s1.count + s2.count⟩) := by
      rw [mergeTrials, hs1, Option.some_bind, hscA, Option.some_bind, hs2A,
        Option.some_bind, hscB, Option.some_bind]
    have hstep : ofoldl mergeTrials sc (b :: B) =
        ofoldl mergeTrials (dinsert scB b ⟨s1.total + s2.total, s1.count + s2.count⟩) B := by
      rw [ofoldl, hm]
    obtain ⟨he1, he2⟩ := hends b (List.mem_cons_self _ _)
    have hbne1 : ∀ x : String, b ≠ x ++ "-1" := fun x => strNe_of_not_endsWith he1
    have hbne2 : ∀ x : String, b ≠ x ++ "-2" := fun x => strNe_of_not_endsWith he2
    have hb_nin : b ∉ B := (List.nodup_cons.mp hB).1
    have hBnd : B.Nodup := (List.nodup_cons.mp hB).2
    have hndA : DKeysNodup scA := derase_keysNodup hnd hscA
    have hndB : DKeysNodup scB := derase_keysNodup hndA hscB
    have hndC : DKeysNodup (dinsert scB b ⟨s1.total + s2.total, s1.count + s2.count⟩) :=
      dinsert_keysNodup hndB
    have hpreserve : ∀ n : String, n ≠ b → n ≠ b ++ "-1" → n ≠ b ++ "-2" →
        dget (dinsert scB b ⟨s1.total + s2.total, s1.count + s2.count⟩) n = dget sc n := by
      intro n hn hn1 hn2
      rw [dget_dinsert_ne _ _ _ _ hn, dget_derase_ne hn2 hscB, dget_derase_ne hn1 hscA]
    have hkeep : ∀ b2 ∈ B,
        dget (dinsert scB b ⟨s1.total + s2.total, s1.count + s2.count⟩) (b2 ++ "-1") =
          dget sc (b2 ++ "-1") ∧
        dget (dinsert scB b ⟨s1.total + s2.total, s1.count + s2.count⟩) (b2 ++ "-2") =
          dget sc (b2 ++ "-2") := by
      intro b2 hb2
      have hne_b : b2 ≠ b := fun h => hb_nin (h ▸ hb2)
      constructor
      · refine hpreserve _ ?_ ?_ ?_
        · exact fun h => hbne1 b2 h.symm
        · exact fun h => hne_b (strAppend_cancel h)
        · exact strAppend_d1_ne_d2 b2 b
      · refine hpreserve _ ?_ ?_ ?_
        · exact fun h => hbne2 b2 h.symm
        · exact fun h => strAppend_d1_ne_d2 b b2 h.symm
        · exact fun h => hne_b (strAppend_cancel h)
    have hpresB : ∀ b2 ∈ B,
        (dget (dinsert scB b ⟨s1.total + s2.total, s1.count + s2.count⟩)
          (b2 ++ "-1")).isSome = true ∧
        (dget (dinsert scB b ⟨s1.total + s2.total, s1.count + s2.count⟩)
          (b2 ++ "-2")).isSome = true := by
      intro b2 hb2
      obtain ⟨q1, q2⟩ := hpres b2 (List.mem_cons_of_mem _ hb2)
      obtain ⟨e1, e2⟩ := hkeep b2 hb2
      exact ⟨e1 ▸ q1, e2 ▸ q2⟩
    obtain ⟨sc2, hfold, hval, habs, hframe⟩ :=
      ih (dinsert scB b ⟨s1.total + s2.total, s1.count + s2.count⟩) hndC hBnd
        (fun b2 hb2 => hends b2 (List.mem_cons_of_mem _ hb2)) hpresB
    refine ⟨sc2, hstep.trans hfold, ?_, ?_, ?_⟩
    · intro b2 hb2 t1 t2 ht1 ht2
      rcases List.mem_cons.mp hb2 with rfl | hb2t
      · obtain rfl : s1 = t1 := Option.some.inj (hs1.symm.trans ht1)
        obtain rfl : s2 = t2 := Option.some.inj (hs2.symm.trans ht2)
        have hfr : dget sc2 b2 =
            dget (dinsert scB b2 ⟨s1.total + s2.total, s1.count + s2.count⟩) b2 := by
          refine hframe b2 ?_
          intro b3 hb3
          exact ⟨fun h => hb_nin (h ▸ hb3), hbne1 b3, hbne2 b3⟩
        rw [hfr, dget_dinsert_self]
      · have e1 : dget (dinsert scB b ⟨s1.total + s2.total, s1.count + s2.count⟩)
            (b2 ++ "-1") = some t1 := by
          rw [(hkeep b2 hb2t).1]
          exact ht1
        have e2 : dget (dinsert scB b ⟨s1.total + s2.total, s1.count + s2.count⟩)
            (b2 ++ "-2") = some t2 := by
          rw [(hkeep b2 hb2t).2]
          exact ht2
        exact hval b2 hb2t t1 t2 e1 e2
    · intro b2 hb2
      rcases List.mem_cons.mp hb2 with rfl | hb2t
      · have hfr1 : dget sc2 (b2 ++ "-1") =
            dget (dinsert scB b2 ⟨s1.total + s2.total, s1.count + s2.count⟩) (b2 ++ "-1") := by
          refine hframe _ ?_
          intro b3 hb3
          refine ⟨fun h => strNe_of_not_endsWith
            (hends b3 (List.mem_cons_of_mem _ hb3)).1 h.symm, ?_, ?_⟩
          · exact fun h => hb_nin ((strAppend_cancel h) ▸ hb3)
          · exact strAppend_d1_ne_d2 b2 b3
        have hfr2 : dget sc2 (b2 ++ "-2") =
            dget (dinsert scB b2 ⟨s1.total + s2.total, s1.count + s2.count⟩) (b2 ++ "-2") := by
          refine hframe _ ?_
          intro b3 hb3
          refine ⟨fun h => strNe_of_not_endsWith
            (hends b3 (List.mem_cons_of_mem _ hb3)).2 h.symm, ?_, ?_⟩
          · exact fun h => strAppend_d1_ne_d2 b3 b2 h.symm
          · exact fun h => hb_nin ((strAppend_cancel h) ▸ hb3)
        constructor
        · rw [hfr1, dget_dinsert_ne _ _ _ _ (fun h => hbne1 _ h.symm),
            dget_derase_ne (strAppend_d1_ne_d2 _ _) hscB]
          exact dget_derase_self hnd hscA
        · rw [hfr2, dget_dinsert_ne _ _ _ _ (fun h => hbne2 _ h.symm)]
          exact dget_derase_self hndA hscB
      · exact habs b2 hb2t
    · intro n hn
      obtain ⟨hna, hnb, hnc⟩ := hn b (List.mem_cons_self _ _)
      rw [hframe n (fun b3 hb3 => hn b3 (List.mem_cons_of_mem _ hb3)),
        hpreserve n hna hnb hnc]

/-- C3: in the evaluation breakdown over any action table (with distinct
action names, a `-2` partner for every `-1` trial, and no merged base name
itself of trial form — as in the real Human3.6M table), every action pair
`X-1`/`X-2` is replaced by a single `X` entry whose value is (sum of both
trials' total per-pose error) / (sum of both trials' pose counts) — a
weighted mean — and neither per-trial entry appears in the returned
mapping. Table rows, per-pose errors and the row mask are arbitrary. -/
theorem c3_trial_merge (d : Dataset) (ppe : List ℝ) (mask0 : Option (List Bool))
    (X : String) (i1 i2 : ℕ)
    (hnodup : d.labels.action_names.Nodup)
    (hends : ∀ b ∈ baseNames d, strEndsWith b "-1" = false ∧ strEndsWith b "-2" = false)
    (hpairs : ∀ b ∈ baseNames d, (b ++ "-2") ∈ d.labels.action_names)
    (hm1 : (mask0.getD (List.replicate ppe.length true)).length = ppe.length)
    (hm2 : d.labels.table.length = (mask0.getD (List.replicate ppe.length true)).length)
    (hX1 : listIndex d.labels.action_names (X ++ "-1") = some i1)
    (hX2 : listIndex d.labels.action_names (X ++ "-2") = some i2) :
    ∃ sc, evaluateByActions d ppe mask0 = some sc ∧
      dget sc X = some (divNaN
        ((trialSelect d ppe mask0 i1).sum + (trialSelect d ppe mask0 i2).sum)
        ((trialSelect d ppe mask0 i1).length + (trialSelect d ppe mask0 i2).length)) ∧
      dget sc (X ++ "-1") = none ∧
      dget sc (X ++ "-2") = none := by
  have hpres : ∀ b ∈ baseNames d,
      (dget (rangeScores d ppe (mask0.getD (List.replicate ppe.length true)))
        (b ++ "-1")).isSome = true ∧
      (dget (rangeScores d ppe (mask0.getD (List.replicate ppe.length true)))
        (b ++ "-2")).isSome = true := by
    intro b hb
    exact ⟨rangeScores_isSome (mem_baseNames.mp hb), rangeScores_isSome (hpairs b hb)⟩
  obtain ⟨sc2, hfold, hval, habs, _⟩ :=
    merge_fold_spec (baseNames d) (rangeScores d ppe (mask0.getD (List.replicate ppe.length true)))
      (rangeScores_keysNodup d ppe _) (baseNames_nodup hnodup) hends hpres
  have hrun : evaluateByActions d ppe mask0 =
      some (dmap (fun v => divNaN v.total v.count) sc2) := by
    show (if (mask0.getD (List.replicate ppe.length true)).length = ppe.length ∧
        d.labels.table.length = (mask0.getD (List.replicate ppe.length true)).length then
        Option.bind (ofoldl mergeTrials
          (rangeScores d ppe (mask0.getD (List.replicate ppe.length true))) (baseNames d))
          (fun scores2 => some (dmap (fun v => divNaN v.total v.count) scores2))
      else none) = some (dmap (fun v => divNaN v.total v.count) sc2)
    rw [if_pos ⟨hm1, hm2⟩, hfold, Option.some_bind]
  have hX : X ∈ baseNames d := mem_baseNames.mpr (List.get?_mem (listIndex_get hX1))
  have hv1 : dget (rangeScores d ppe (mask0.getD (List.replicate ppe.length true)))
      (X ++ "-1") = some (selScore d ppe (mask0.getD (List.replicate ppe.length true)) i1) :=
    rangeScores_dget_at hnodup (listIndex_get hX1)
  have hv2 : dget (rangeScores d ppe (mask0.getD (List.replicate ppe.length true)))
      (X ++ "-2") = some (selScore d ppe (mask0.getD (List.replicate ppe.length true)) i2) :=
    rangeScores_dget_at hnodup (listIndex_get hX2)
  refine ⟨_, hrun, ?_, ?_, ?_⟩
  · rw [dget_dmap, hval X hX _ _ hv1 hv2, Option.map_some']
    rfl
  · rw [dget_dmap, (habs X hX).1, Option.map_none']
  · rw [dget_dmap, (habs X hX).2, Option.map_none']

/-- The dataset of the C3 witness: two trial pairs, `Greeting` and
`Walking`, over a five-row table. -/
def dPairs : Dataset :=
  { kind := "totalcap"
    labels := { camera_names := ["c"], subject_names := ["s1"]
                action_names := ["Greeting-1", "Greeting-2", "Walking-1", "Walking-2"]
                table := [rowAct 0, rowAct 0, rowAct 1, rowAct 2, rowAct 3] }
    ignore_cameras := []
    num_keypoints := 21
    keypoints_3d_pred := none }

/-- Witness for C3 at the spec's own example, inside a two-pair table:
`Greeting` trials with errors `[2, 4]` and `[6]` merge to `(2+4+6)/3 = 4`,
`Walking` trials `[10]` and `[20]` merge to `15`, and no per-trial entry
survives. -/
theorem c3_trial_merge_witness :
    ∃ sc, evaluateByActions dPairs ([2, 4, 6, 10, 20] : List ℝ) none = some sc ∧
      dget sc "Greeting" = some (some 4) ∧
      dget sc "Greeting-1" = none ∧ dget sc "Greeting-2" = none ∧
      dget sc "Walking" = some (some 15) ∧
      dget sc "Walking-1" = none ∧ dget sc "Walking-2" = none := by
  obtain ⟨sc, hrun, hg, hg1, hg2⟩ :=
    c3_trial_merge dPairs [2, 4, 6, 10, 20] none "Greeting" 0 1 (by decide) (by decide)
      (by decide) rfl rfl (by decide) (by decide)
  obtain ⟨sc', hrun', hw, hw1, hw2⟩ :=
    c3_trial_merge dPairs [2, 4, 6, 10, 20] none "Walking" 2 3 (by decide) (by decide)
      (by decide) rfl rfl (by decide) (by decide)
  obtain rfl : sc' = sc := Option.some.inj (hrun'.symm.trans hrun)
  refine ⟨sc', hrun, ?_, hg1, hg2, ?_, hw1, hw2⟩
  · rw [hg,
      show trialSelect dPairs [2, 4, 6, 10, 20] none 0 = [2, 4] from rfl,
      show trialSelect dPairs [2, 4, 6, 10, 20] none 1 = [6] from rfl]
    norm_num [divNaN]
  · rw [hw,
      show trialSelect dPairs [2, 4, 6, 10, 20] none 2 = [10] from rfl,
      show trialSelect dPairs [2, 4, 6, 10, 20] none 3 = [20] from rfl]
    norm_num [divNaN]

/-! ### Supporting lemmas for the evaluator round trip -/

theorem omap_congr {α β : Type} {f g : α → Option β} :
    ∀ {l : List α}, (∀ a ∈ l, f a = g a) → omap f l = omap g l := by
  intro l
  induction l with
  | nil => intro _; rfl
  | cons a t ih =>
    intro h
    rw [omap, omap, h a (by simp), ih (fun x hx => h x (by simp [hx]))]

theorem omap_append {α β : Type} {f : α → Option β} :
    ∀ {l1 l2 : List α}, omap f (l1 ++ l2) =
      (omap f l1).bind (fun b1 => (omap f l2).map (fun b2 => b1 ++ b2)) := by
  intro l1
  induction l1 with
  | nil =>
    intro l2
    cases h : omap f l2 <;> simp [omap, h]
  | cons a t ih =>
    intro l2
    rw [List.cons_append, omap, omap, ih]
    cases hfa : f a <;> cases ht : omap f t <;> cases h2 : omap f l2 <;> simp [hfa, ht, h2]

/-- `omap get?` over `range length` rebuilds the list (the matching index
array `np.arange(len)`). -/
theorem omap_get_range {α : Type} (l : List α) :
    omap l.get? (List.range l.length) = some l := by
  induction l using List.reverseRecOn with
  | nil => rfl
  | append_singleton l2 x ih =>
    rw [List.length_append, List.length_singleton, List.range_succ, omap_append]
    have h1 : omap (l2 ++ [x]).get? (List.range l2.length) = some l2 := by
      rw [omap_congr (g := l2.get?), ih]
      intro j hj
      exact List.get?_append (List.mem_range.mp hj)
    rw [h1]
    simp [omap, List.get?_concat_length]

theorem omap_map {α β γ : Type} {f : β → Option γ} {g : α → β} :
    ∀ {l : List α}, omap f (l.map g) = omap (fun a => f (g a)) l := by
  intro l
  induction l with
  | nil => rfl
  | cons a t ih => rw [List.map_cons, omap, omap, ih]

theorem omap_eq_replicate {α β : Type} {f : α → Option β} {c : β} :
    ∀ {l : List α}, (∀ a ∈ l, f a = some c) →
      omap f l = some (List.replicate l.length c) := by
  intro l
  induction l with
  | nil => intro _; rfl
  | cons a t ih =>
    intro h
    rw [omap, h a (by simp), ih (fun x hx => h x (by simp [hx]))]
    simp [List.replicate_succ]

theorem zip_self {α : Type} :
    ∀ (l : List α), l.zip l = l.map (fun a => (a, a)) := by
  intro l
  induction l with
  | nil => rfl
  | cons a t ih => rw [List.zip_cons_cons, List.map_cons, ih]

/-- The distance of a joint to itself is zero. -/
theorem jointDist_self (a : Vec3) : jointDist a a = 0 := by
  simp [jointDist]

/-- A pose paired with itself gives per-joint distances of zero. -/
theorem zipWith_jointDist_self : ∀ (p : Pose),
    List.zipWith jointDist p p = List.replicate p.length 0 := by
  intro p
  induction p with
  | nil => rfl
  | cons a t ih =>
    rw [List.zipWith_cons_cons, jointDist_self, List.length_cons, List.replicate_succ, ih]

/-- A nonempty pose has zero mean error against itself. -/
theorem posePairError_self {p : Pose} (hp : p ≠ []) : posePairError p p = some 0 := by
  have hlen : p.length ≠ 0 := fun h => hp (List.length_eq_zero.mp h)
  rw [posePairError, if_pos ⟨rfl, hlen⟩, zipWith_jointDist_self]
  simp

/-- A list of nonempty poses has all-zero per-pose error against itself. -/
theorem pairErrors_self {l : List Pose} (h : ∀ p ∈ l, p ≠ []) :
    pairErrors l l = some (List.replicate l.length 0) := by
  rw [pairErrors, if_pos rfl, zip_self, omap_map]
  exact omap_eq_replicate (fun p hp => posePairError_self (h p hp))

/-- `relativize` succeeds exactly on poses with a joint at the root index,
and preserves the joint count. -/
theorem relativize_some {root : ℕ} {p q : Pose} (h : relativize root p = some q) :
    q.length = p.length ∧ root < p.length := by
  rw [relativize] at h
  cases hr : p.get? root with
  | none => rw [hr] at h; exact Option.noConfusion h
  | some r =>
    rw [hr] at h
    obtain rfl := Option.some.inj h
    exact ⟨List.length_map _ _, (List.get?_eq_some.mp hr).1⟩

/-- Selected errors are a subset of the error list. -/
theorem maskSelect_mem {K : Type} {ppe : List K} {mask : List Bool} {x : K}
    (h : x ∈ maskSelect ppe mask) : x ∈ ppe := by
  rcases List.mem_map.mp h with ⟨q, hq, rfl⟩
  exact (List.of_mem_zip (List.mem_filter.mp hq).1).1

/-- All raw totals of a score dictionary vanish. -/
def RawAllZero (sc : Dict (RawScore ℝ)) : Prop := ∀ p ∈ sc, p.2.total = 0

/-- `mergeTrials` preserves vanishing totals. -/
theorem mergeTrials_zero {sc sc2 : Dict (RawScore ℝ)} {base : String}
    (h : mergeTrials sc base = some sc2) (hz : RawAllZero sc) : RawAllZero sc2 := by
  simp only [mergeTrials, Option.bind_eq_some] at h
  rcases h with ⟨s1, hs1, d1, hd1, s2, hs2, d2, hd2, heq⟩
  obtain rfl := Option.some.inj heq
  intro p hp
  rcases mem_dinsert hp with rfl | hp2
  · have h1 : s1.total = 0 := hz _ (dget_mem hs1)
    have h2 : s2.total = 0 := hz _ (derase_subset hd1 _ (dget_mem hs2))
    simp [h1, h2]
  · exact hz _ (derase_subset hd1 _ (derase_subset hd2 _ hp2))

/-- When every per-pose error vanishes, every finite entry of the per-action
breakdown vanishes. -/
theorem evaluateByActions_zero {d : Dataset} {ppe : List ℝ} {mask0 : Option (List Bool)}
    {sc : Dict (Option ℝ)} (hz : ∀ x ∈ ppe, x = 0)
    (h : evaluateByActions d ppe mask0 = some sc) :
    ∀ p ∈ sc, ∀ x : ℝ, p.2 = some x → x = 0 := by
  rw [evaluateByActions] at h
  split at h
  · simp only [Option.bind_eq_some] at h
    rcases h with ⟨s2, hs2, heq⟩
    obtain rfl := Option.some.inj heq
    have hsel : ∀ mask2, (maskSelect ppe mask2).sum = 0 :=
      fun mask2 => List.sum_eq_zero (fun x hx => hz x (maskSelect_mem hx))
    have h0 : RawAllZero [("Average",
        ⟨(maskSelect ppe (mask0.getD (List.replicate ppe.length true))).sum,
         (mask0.getD (List.replicate ppe.length true)).count true⟩)] := by
      intro p hp
      rcases List.mem_singleton.mp hp with rfl
      exact hsel _
    have h1 : RawAllZero
        (rangeScores d ppe (mask0.getD (List.replicate ppe.length true))) := by
      rw [rangeScores]
      refine foldl_preserve RawAllZero _ ?_ h0
      intro sc2 a hsc2 p hp
      rcases mem_dinsert hp with rfl | hp2
      · exact hsel _
      · exact hsc2 _ hp2
    have h2 : RawAllZero s2 :=
      ofoldl_preserve RawAllZero mergeTrials
        (fun sc2 b sc3 hm hzz => mergeTrials_zero hm hzz) hs2 h1
    intro p hp x hx
    rcases mem_dmap hp with ⟨q, hq, rfl⟩
    have hq0 : q.2.total = 0 := h2 _ hq
    simp only [divNaN] at hx
    split at hx
    · exact Option.noConfusion hx
    · obtain rfl := Option.some.inj hx
      simp [hq0]
  · exact Option.noConfusion h

/-- When every per-pose error vanishes, every finite entry of the full
subject→action breakdown vanishes. -/
theorem evaluateUsingPerPoseError_zero {d : Dataset} {ppe : List ℝ}
    {br : Dict (Dict (Option ℝ))} (hz : ∀ x ∈ ppe, x = 0)
    (h : evaluateUsingPerPoseError d ppe = some br) :
    ∀ p ∈ br, ∀ q ∈ p.2, ∀ x : ℝ, q.2 = some x → x = 0 := by
  rw [evaluateUsingPerPoseError] at h
  simp only [Option.bind_eq_some] at h
  rcases h with ⟨avg, havg, hfold⟩
  have hinit : ∀ p ∈ ([("Average", avg)] : Dict (Dict (Option ℝ))),
      ∀ q ∈ p.2, ∀ x : ℝ, q.2 = some x → x = 0 := by
    intro p hp q hq x hx
    rcases List.mem_singleton.mp hp with rfl
    exact evaluateByActions_zero hz havg q hq x hx
  refine ofoldl_preserve
    (fun sc => ∀ p ∈ sc, ∀ q ∈ p.2, ∀ x : ℝ, q.2 = some x → x = 0) _ ?_ hfold hinit
  intro sc i sc2 hstep hsc
  simp only [Option.bind_eq_some] at hstep
  rcases hstep with ⟨s, hs, heq⟩
  obtain rfl := Option.some.inj heq
  intro p hp q hq x hx
  rcases mem_dinsert hp with rfl | hp2
  · exact evaluateByActions_zero hz hs q hq x hx
  · exact hsc _ hp2 q hq x hx

/-! ### C2 — evaluator round trip on the dataset's own ground truth -/

/-- C2 (amended): feeding the dataset's own ground truth as the prediction,
with the matching index array `np.arange(len)`, yields zero absolute and
zero relative error for every pose, and every *finite* entry of both
breakdowns is zero; entries of subjects or actions with no matching rows
are the `nan` of a `0.0/0` division (modelled `none`), not zero. (The
HumanEva kind is excluded: its evaluation compares two different joint
subsets, so the round trip does not vanish there.) -/
theorem c2_round_trip_zero (d : Dataset) (hk : d.kind ≠ "humaneva")
    (hj : ∀ r ∈ d.labels.table, 7 ≤ r.keypoints.length) (hn : 7 ≤ d.num_keypoints) :
    perPoseErrors d (gtOf d) (List.range (datasetLen d)) false false =
      some (List.replicate (datasetLen d) 0, List.replicate (datasetLen d) 0) ∧
    ∀ score bAbs bRel,
      evaluate d (gtOf d) (List.range (datasetLen d)) false false = some (score, bAbs, bRel) →
      (∀ p ∈ bAbs, ∀ q ∈ p.2, ∀ x : ℝ, q.2 = some x → x = 0) ∧
      (∀ p ∈ bRel, ∀ q ∈ p.2, ∀ x : ℝ, q.2 = some x → x = 0) := by
  have hposelen : ∀ p ∈ gtOf d, 7 ≤ p.length := by
    intro p hp
    rcases List.mem_map.mp hp with ⟨r, hr, rfl⟩
    rw [List.length_take]
    exact le_min hn (hj r hr)
  have hne : ∀ p ∈ gtOf d, p ≠ [] := by
    intro p hp h0
    have h7 := hposelen p hp
    rw [h0] at h7
    simp at h7
  have hlen : (gtOf d).length = datasetLen d := List.length_map _ _
  have hmain : perPoseErrors d (gtOf d) (List.range (datasetLen d)) false false =
      some (List.replicate (datasetLen d) 0, List.replicate (datasetLen d) 0) := by
    have hprep : prepTransfer (gtOf d) (gtOf d) false false = some (gtOf d, gtOf d) := rfl
    have hheva : prepHumanEva d (gtOf d) (gtOf d) = some (gtOf d, gtOf d) := by
      rw [prepHumanEva, if_neg hk]
    have hgtAt : omap (gtOf d).get? (List.range (datasetLen d)) = some (gtOf d) := by
      rw [← hlen]
      exact omap_get_range _
    have habs : pairErrors (gtOf d) (gtOf d) = some (List.replicate (datasetLen d) 0) := by
      rw [pairErrors_self hne, hlen]
    have hrelsome : ∀ p ∈ gtOf d, (relativize 6 p).isSome := by
      intro p hp
      rw [relativize]
      cases hr : p.get? 6 with
      | none =>
        have h6 := List.get?_eq_none.mp hr
        have h7 := hposelen p hp
        omega
      | some r => simp
    obtain ⟨gtRel, hgtRel⟩ := omap_exists hrelsome
    have hrelne : ∀ q ∈ gtRel, q ≠ [] := by
      intro q hq h0
      rcases omap_mem hgtRel q hq with ⟨p, hp, hrel⟩
      have hql := (relativize_some hrel).1
      have h7 := hposelen p hp
      rw [h0] at hql
      simp at hql
      omega
    have hrellen : gtRel.length = datasetLen d := by
      rw [omap_length hgtRel, hlen]
    have hrelpart : relPart d (gtOf d) (gtOf d) 6 = some (List.replicate (datasetLen d) 0) := by
      rw [relPart, hgtRel]
      simp only [Option.some_bind]
      rw [if_neg hk, pairErrors_self hrelne, hrellen]
    rw [perPoseErrors, hprep]
    simp only [Option.some_bind]
    rw [hheva]
    simp [hgtAt, habs, hrelpart]
  refine ⟨hmain, ?_⟩
  intro score bAbs bRel hev
  rw [evaluate] at hev
  simp only [Option.bind_eq_some] at hev
  rcases hev with ⟨e, he, bAbs2, hbAbs, bRel2, hbRel, avgDict, havgD, score2, hscore, heq⟩
  obtain ⟨rfl, h23⟩ := Prod.mk.injEq _ _ _ _ |>.mp (Option.some.inj heq)
  obtain ⟨rfl, rfl⟩ := Prod.mk.injEq _ _ _ _ |>.mp h23
  obtain rfl := Option.some.inj (hmain.symm.trans he)
  have hz : ∀ x ∈ List.replicate (datasetLen d) (0 : ℝ), x = 0 :=
    fun x hx => List.eq_of_mem_replicate hx
  exact ⟨evaluateUsingPerPoseError_zero hz hbAbs, evaluateUsingPerPoseError_zero hz hbRel⟩

/-- A test-subject (S9) row with 7 zero keypoints. -/
def rowC2 : Row :=
  { subject_idx := 5, action_idx := 0, frame_idx := 0, keypoints := poseZero
    bbox_by_camera_tlbr := [(0, 0, 10, 10)] }

/-- Labels with the full `"human36m"` subject-name list but rows only for
S9, so that the constructed dataset has subjects (S1, …) with no rows. -/
def labelsC2 : Labels :=
  { camera_names := ["c"]
    subject_names := ["S1", "S5", "S6", "S7", "S8", "S9", "S11"]
    action_names := ["Act"]
    table := [rowC2] }

/-- A test-only `"human36m"` configuration (damaged rows kept, so the
damaged-action name lookups are skipped). -/
def cfgC2 : Config :=
  { train := false, test := true, retain := 1, with_damaged_actions := true
    kind := "human36m", ignore_cameras := [], pred := none }

/-- The dataset constructed by `init cfgC2 labelsC2`. -/
def dC2 : Dataset :=
  { kind := "human36m"
    labels := { labelsC2 with table := filteredTable labelsC2 [0] }
    ignore_cameras := []
    num_keypoints := 17
    keypoints_3d_pred := none }

/-- Counterexample to C2 as stated: on the constructed dataset `dC2`,
feeding its own ground truth with the matching index `[0]` produces a
breakdown whose `S1` subject entry (a subject with no rows) has the
`Average` value `none` — the `nan` of the `0.0 / 0` division at line 297 —
where the claim demands zero for *every* subject entry. -/
theorem c2_counterexample_nan_entry :
    init cfgC2 labelsC2 = .ok dC2 ∧
    ((evaluate dC2 (gtOf dC2) [0] false false).bind
      (fun res => (dget res.2.2 "S1").bind (fun adict => dget adict "Average"))) = some none ∧
    some (none : Option ℝ) ≠ some (some (0 : ℝ)) := by
  refine ⟨rfl, ?_, by simp⟩
  norm_num [evaluate, perPoseErrors, prepTransfer, prepHumanEva, relPart, pairErrors,
    posePairError, omap, gtOf, dC2, labelsC2, rowC2, filteredTable, poseZero, relativize,
    Vec3.sub, jointDist, List.replicate, Real.sqrt_zero, List.cons_ne_nil,
    evaluateUsingPerPoseError, evaluateByActions, rangeScores, selScore, maskSelect,
    actionMask, baseNames, strEndsWith, strDropLast, ofoldl, mergeTrials, dget, dinsert,
    derase, dmap, divNaN, List.getD]
  simp +decide [dget, dinsert, divNaN]

/-- Witness for the amended C2 at a concrete input. -/
theorem c2_round_trip_zero_witness :
    dC2.kind ≠ "humaneva" ∧
    (∀ r ∈ dC2.labels.table, 7 ≤ r.keypoints.length) ∧
    7 ≤ dC2.num_keypoints ∧
    (perPoseErrors dC2 (gtOf dC2) (List.range (datasetLen dC2)) false false =
        some (List.replicate (datasetLen dC2) 0, List.replicate (datasetLen dC2) 0) ∧
      ∀ score bAbs bRel,
        evaluate dC2 (gtOf dC2) (List.range (datasetLen dC2)) false false =
          some (score, bAbs, bRel) →
        (∀ p ∈ bAbs, ∀ q ∈ p.2, ∀ x : ℝ, q.2 = some x → x = 0) ∧
        (∀ p ∈ bRel, ∀ q ∈ p.2, ∀ x : ℝ, q.2 = some x → x = 0)) := by
  have hj : ∀ r ∈ dC2.labels.table, 7 ≤ r.keypoints.length := by
    intro r hr
    rcases List.mem_singleton.mp hr with rfl
    rfl
  exact ⟨by decide, hj, by decide, c2_round_trip_zero dC2 (by decide) hj (by decide)⟩

/-! ### C1 — which errors honour the supplied index array -/

/-- Follows the spec's words (claim C1): the absolute per-pose error against
the ground truth taken at the row positions `idx`. -/
noncomputable def specAbsAtIdx (d : Dataset) (pred : List Pose) (idx : List ℕ) :
    Option (List ℝ) :=
  Option.bind (omap (gtOf d).get? idx) (fun g => pairErrors g pred)

/-- Follows the spec's words (claim C1): the relative per-pose error against
the root-relativized ground truth taken at the row positions `idx`. -/
noncomputable def specRelAtIdx (d : Dataset) (pred : List Pose) (idx : List ℕ) :
    Option (List ℝ) :=
  Option.bind (omap (relativize 6) (gtOf d)) (fun gtRel =>
  Option.bind (omap (relativize 6) pred) (fun prRel =>
  Option.bind (omap gtRel.get? idx) (fun g => pairErrors g prRel)))

/-- C1 (amended): in the default evaluation path (no transfer flags, not the
HumanEva kind), the absolute per-pose error is indeed computed against the
ground truth at the row positions `idx` (line 349), but the relative
per-pose error pairs the table's rows with the prediction rows
positionally — lines 357-363 never apply `idx`. -/
theorem c1_abs_uses_idx_rel_does_not (d : Dataset) (pred : List Pose) (idx : List ℕ)
    (a r : List ℝ) (hk : d.kind ≠ "humaneva")
    (h : perPoseErrors d pred idx false false = some (a, r)) :
    specAbsAtIdx d pred idx = some a ∧ relPart d (gtOf d) pred 6 = some r := by
  have hprep : prepTransfer pred (gtOf d) false false = some (gtOf d, pred) := rfl
  have hheva : prepHumanEva d (gtOf d) pred = some (gtOf d, pred) := by
    rw [prepHumanEva, if_neg hk]
  simp only [perPoseErrors, hprep, Option.bind_eq_some] at h
  rcases h with ⟨q, hq, qT, hqT, gtAt, hgtAt, errAbs, habs, errRel, hrel, heq⟩
  obtain rfl := Option.some.inj hq
  obtain rfl := Option.some.inj (hheva.symm.trans hqT)
  obtain ⟨rfl, rfl⟩ := Prod.mk.injEq _ _ _ _ |>.mp (Option.some.inj heq)
  constructor
  · rw [specAbsAtIdx, hgtAt]
    exact habs
  · exact hrel

/-- A 7-joint pose: joints 0-5 at `(1,0,0)`, the root joint 6 at the
origin (so the pose equals its own root-relativization). -/
def poseOne : Pose := List.replicate 6 ⟨1, 0, 0⟩ ++ [⟨0, 0, 0⟩]

/-- A single-camera row holding the given keypoints. -/
def rowPose (p : Pose) : Row :=
  { subject_idx := 0, action_idx := 0, frame_idx := 0, keypoints := p
    bbox_by_camera_tlbr := [] }

/-- A two-row dataset whose ground-truth poses are `poseZero` and
`poseOne`. -/
def dEval1 : Dataset :=
  { kind := "totalcap"
    labels := { camera_names := ["c"], subject_names := ["s1"], action_names := ["A"]
                table := [rowPose poseZero, rowPose poseOne] }
    ignore_cameras := []
    num_keypoints := 21
    keypoints_3d_pred := none }

/-- Counterexample to C1 as stated: with `idx = [1, 0]` and the predictions
equal to the ground truth at those positions, the claim demands zero
relative error (`specRelAtIdx` yields `[0, 0]`), but the code's relative
per-pose error is `[6/7, 6/7]` ≠ `[0, 0]`, because lines 357-363 pair the
rows positionally and ignore `idx`. The absolute error (line 349) does
honour `idx`: it is `[0, 0]`. -/
theorem c1_counterexample_rel_ignores_idx :
    perPoseErrors dEval1 [poseOne, poseZero] [1, 0] false false =
      some ([0, 0], [6 / 7, 6 / 7]) ∧
    specRelAtIdx dEval1 [poseOne, poseZero] [1, 0] = some [0, 0] ∧
    ((6 : ℝ) / 7 ≠ 0) := by
  refine ⟨?_, ?_, by norm_num⟩
  · norm_num [perPoseErrors, prepTransfer, prepHumanEva, relPart, pairErrors, posePairError,
      omap, gtOf, dEval1, rowPose, poseZero, poseOne, relativize, Vec3.sub, jointDist,
      List.replicate, Real.sqrt_one, Real.sqrt_zero, List.cons_ne_nil]
    simp +decide [selectJoints, omap, pairErrors, posePairError, jointDist, Real.sqrt_zero,
      Real.sqrt_one]
  · norm_num [specRelAtIdx, pairErrors, posePairError, omap, gtOf, dEval1, rowPose, poseZero,
      poseOne, relativize, Vec3.sub, jointDist, List.replicate, Real.sqrt_zero,
      List.cons_ne_nil]

/-- Witness for the amended C1 at a concrete input. -/
theorem c1_abs_uses_idx_rel_does_not_witness :
    dEval1.kind ≠ "humaneva" ∧
    specAbsAtIdx dEval1 [poseOne, poseZero] [1, 0] = some [0, 0] ∧
    relPart dEval1 (gtOf dEval1) [poseOne, poseZero] 6 = some [6 / 7, 6 / 7] := by
  have h : perPoseErrors dEval1 [poseOne, poseZero] [1, 0] false false =
      some ([0, 0], [6 / 7, 6 / 7]) := by
    norm_num [perPoseErrors, prepTransfer, prepHumanEva, relPart, pairErrors, posePairError,
      omap, gtOf, dEval1, rowPose, poseZero, poseOne, relativize, Vec3.sub, jointDist,
      List.replicate, Real.sqrt_one, Real.sqrt_zero, List.cons_ne_nil]
    simp +decide [selectJoints, omap, pairErrors, posePairError, jointDist, Real.sqrt_zero,
      Real.sqrt_one]
  exact ⟨by decide,
    c1_abs_uses_idx_rel_does_not dEval1 [poseOne, poseZero] [1, 0] _ _ (by decide) h⟩

/-! ### Concrete data used by witnesses and counterexamples -/

/-- A labels table rich enough for the `"human36m"` name lookups: the full
subject-name list, the three damaged action names plus two ordinary ones,
and four rows (an S9 damaged row, an S9 ordinary row, an S11 ordinary row
and a train-subject row). -/
def labelsH36 : Labels :=
  { camera_names := ["54138969"]
    subject_names := ["S1", "S5", "S6", "S7", "S8", "S9", "S11"]
    action_names := ["Greeting-1", "Greeting-2", "SittingDown-2", "Waiting-1", "Act"]
    table :=
      [ { subject_idx := 5, action_idx := 1, frame_idx := 0, keypoints := poseZero
          bbox_by_camera_tlbr := [(0, 0, 10, 10)] }
      , { subject_idx := 5, action_idx := 4, frame_idx := 1, keypoints := poseZero
          bbox_by_camera_tlbr := [(0, 0, 10, 10)] }
      , { subject_idx := 6, action_idx := 4, frame_idx := 2, keypoints := poseZero
          bbox_by_camera_tlbr := [(0, 0, 10, 10)] }
      , { subject_idx := 0, action_idx := 4, frame_idx := 3, keypoints := poseZero
          bbox_by_camera_tlbr := [(0, 0, 10, 10)] } ] }

/-- A test-only `"human36m"` configuration; the flag argument is
`with_damaged_actions`. -/
def cfgH36 (dmg : Bool) : Config :=
  { train := false, test := true, retain := 1, with_damaged_actions := dmg
    kind := "human36m", ignore_cameras := [], pred := none }

/-- The default configuration of the constructor: `kind="mpii"`,
`train=False`, `test=False` — here with `train` switched on so that the
split assert passes. Every assert of the constructor accepts it. -/
def cfgMpiiDefault : Config :=
  { train := true, test := false, retain := 1, with_damaged_actions := false
    kind := "mpii", ignore_cameras := [], pred := none }

/-! ### C8 — construction error handling -/

/-- C8: the claim says construction succeeds whenever the configuration
selects a split, names a recognized kind, lists only in-range ignored
cameras and supplies no mismatched predictions. The code disagrees on its
own default configuration: `kind="mpii"` passes the `assert kind in (...)`
(and is documented in the constructor docstring as a supported kind), but
no branch of lines 76-103 assigns `train_subjects`/`test_subjects`, so
line 105 raises `UnboundLocalError` and construction always fails. -/
theorem c8_mpii_construction_crashes :
    cfgMpiiDefault.train = true ∧
    allowedKinds.contains cfgMpiiDefault.kind = true ∧
    cfgMpiiDefault.ignore_cameras = [] ∧
    cfgMpiiDefault.pred = none ∧
    init cfgMpiiDefault labelsH36 = .error .unboundLocal := by
  refine ⟨rfl, rfl, rfl, rfl, ?_⟩
  rfl

/-! ### C10 — kind `"ama"` applies no train/test filtering -/

/-- C10: for the dataset kind `"ama"`, construction never filters the label
table: whatever the split flags, the retention stride and the
damaged-action flag, the table is kept complete, and the dataset length is
the full row count. -/
theorem c10_ama_table_unfiltered (cfg : Config) (labels : Labels) (d : Dataset)
    (hk : cfg.kind = "ama") (h : init cfg labels = .ok d) :
    d.labels.table = labels.table ∧ datasetLen d = labels.table.length := by
  unfold init at h
  split at h
  · simp at h
  split at h
  · simp at h
  split at h
  · simp at h
  split at h
  · simp at h
  next table heq =>
    split at h
    · simp at h
    next pr heq2 =>
      have htab : table = labels.table := by
        rw [show buildTable cfg labels = .ok labels.table by rw [buildTable, if_pos hk]] at heq
        exact (Except.ok.inj heq).symm
      have hd := Except.ok.inj h
      rw [← hd, datasetLen]
      exact ⟨htab, by simp [htab]⟩

/-- An `"ama"` configuration with `test=True` and a coarse stride. -/
def cfgAma10 : Config :=
  { train := false, test := true, retain := 4, with_damaged_actions := false
    kind := "ama", ignore_cameras := [], pred := none }

/-- Witness for C10 at a concrete input: an `"ama"` construction with
`test=True` and a coarse stride keeps all four rows of the table. -/
theorem c10_ama_table_unfiltered_witness :
    cfgAma10.kind = "ama" ∧
    ∃ d, init cfgAma10 labelsH36 = .ok d ∧
      d.labels.table = labelsH36.table ∧ datasetLen d = labelsH36.table.length := by
  refine ⟨rfl, ?_⟩
  have h : init cfgAma10 labelsH36 = .ok ⟨"ama", labelsH36, [], 17, none⟩ := rfl
  exact ⟨_, h, c10_ama_table_unfiltered cfgAma10 labelsH36 _ rfl h⟩

/-! ### C9 — precomputed predictions: argsort reorder, then stride -/

/-- C9: when a predictions file is configured, the stored predictions are
first reordered by `np.argsort(indexes)` — on `indexes=[2,0,1]` and
`keypoints_3d=[a,b,c]` this yields `[b,c,a]` — and only then resampled at
the test retention stride, the result being what construction attaches to
the dataset (lines 153-159). -/
theorem c9_pred_sorted_then_strided (cfg : Config) (labels : Labels) (d : Dataset)
    (kp : List Pose) (idxs : List ℕ) (a b c : Pose)
    (hp : cfg.pred = some (kp, idxs)) (h : init cfg labels = .ok d) :
    (∃ sorted, applyArgsort idxs kp = some sorted ∧
        d.keypoints_3d_pred = some (everyNth cfg.retain sorted)) ∧
    applyArgsort [2, 0, 1] [a, b, c] = some [b, c, a] := by
  obtain ⟨-, -, -, table, pr, -, hbp, hd⟩ := init_ok_spec h
  constructor
  · rw [buildPred] at hbp
    split at hbp
    · next heq => rw [hp] at heq; exact absurd heq (by simp)
    next kp2 idxs2 heq =>
    rw [hp] at heq
    obtain ⟨rfl, rfl⟩ := (Prod.mk.injEq _ _ _ _).mp (Option.some.inj heq)
    split at hbp
    · simp at hbp
    split at hbp
    · simp at hbp
    next sorted heq3 =>
    dsimp only at hbp
    split at hbp
    · refine ⟨sorted, heq3, ?_⟩
      rw [hd]
      simpa using (Except.ok.inj hbp).symm
    · simp at hbp
  · rfl

/-- The predictions attached by `cfgPred9`: three single-joint poses. -/
def kpPred9 : List Pose := [[⟨1, 0, 0⟩], [⟨2, 0, 0⟩], [⟨3, 0, 0⟩]]

/-- A test-only `"human36m"` configuration carrying a predictions file with
index array `[2, 0, 1]` and stride 2. -/
def cfgPred9 : Config :=
  { train := false, test := true, retain := 2, with_damaged_actions := true
    kind := "human36m", ignore_cameras := [], pred := some (kpPred9, [2, 0, 1]) }

/-- The dataset produced by `init cfgPred9 labelsH36`: test rows 0 and 2
survive the stride, and the predictions are `[b, a]` — sorted `[b, c, a]`
then strided. -/
def dPred9 : Dataset :=
  { kind := "human36m"
    labels := { labelsH36 with table := filteredTable labelsH36 [0, 2] }
    ignore_cameras := []
    num_keypoints := 17
    keypoints_3d_pred := some [[⟨2, 0, 0⟩], [⟨1, 0, 0⟩]] }

/-! ### Inversion lemmas for the table filter -/

/-- A successful `buildTable` for a subject-partitioned kind produces exactly
the train positions followed by the test positions. -/
theorem buildTable_ok_spec {cfg : Config} {labels : Labels} {table : List Row}
    {trS teS : List String} {trainIdx testIdx : List ℕ}
    (hama : cfg.kind ≠ "ama")
    (hsplit : subjectSplit cfg.kind = some (trS, teS))
    (htr : resolveAll labels.subject_names trS = some trainIdx)
    (hte : resolveAll labels.subject_names teS = some testIdx)
    (hbt : buildTable cfg labels = .ok table) :
    ∃ testPart, (if cfg.test then testPositions labels cfg testIdx else some []) = some testPart ∧
      table = filteredTable labels
        ((if cfg.train then trainPositions labels trainIdx else []) ++ testPart) := by
  rw [buildTable, if_neg hama] at hbt
  split at hbt
  · next heq => rw [hsplit] at heq; exact absurd heq (by simp)
  next trS2 teS2 heq =>
  rw [hsplit] at heq
  obtain ⟨rfl, rfl⟩ := (Prod.mk.injEq _ _ _ _).mp (Option.some.inj heq)
  split at hbt
  · next trainIdx2 testIdx2 htr2 hte2 =>
    obtain rfl := Option.some.inj (htr.symm.trans htr2)
    obtain rfl := Option.some.inj (hte.symm.trans hte2)
    dsimp only at hbt
    split at hbt
    · simp at hbt
    split at hbt
    · simp at hbt
    next testPart heq4 =>
    exact ⟨testPart, heq4, (Except.ok.inj hbt).symm⟩
  · next habsurd => exact (habsurd _ _ htr hte).elim

/-- A successful `testPositions` is a stride over some row mask. -/
theorem testPositions_spec {labels : Labels} {cfg : Config} {testIdx tp : List ℕ}
    (h : testPositions labels cfg testIdx = some tp) :
    ∃ m : Row → Bool, tp = everyNth cfg.retain (positionsWhere m labels.table) := by
  unfold testPositions at h
  by_cases hc : ¬cfg.with_damaged_actions ∧ cfg.kind = "human36m"
  · rw [if_pos hc] at h
    cases hs9 : listIndex labels.subject_names "S9" with
    | none =>
      rw [hs9] at h
      exact Option.noConfusion (show (none : Option (List ℕ)) = some tp from h)
    | some s9 =>
      cases hdmg : resolveAll labels.action_names damagedActionNames with
      | none =>
        rw [hs9, hdmg] at h
        exact Option.noConfusion (show (none : Option (List ℕ)) = some tp from h)
      | some dmg =>
        rw [hs9, hdmg] at h
        refine ⟨_, (Option.some.inj
          (show some (everyNth cfg.retain (positionsWhere
            (fun r => testIdx.contains r.subject_idx &&
              !(r.subject_idx == s9 && dmg.contains r.action_idx)) labels.table)) = some tp
           from h)).symm⟩
  · rw [if_neg hc] at h
    exact ⟨_, (Option.some.inj
      (show some (everyNth cfg.retain (positionsWhere
        (fun r => testIdx.contains r.subject_idx) labels.table)) = some tp from h)).symm⟩

/-- Positions produced by `testPositions` address rows of the table. -/
theorem testPositions_lt {labels : Labels} {cfg : Config} {testIdx tp : List ℕ}
    (h : testPositions labels cfg testIdx = some tp) :
    ∀ p ∈ tp, p < labels.table.length := by
  rcases testPositions_spec h with ⟨m, rfl⟩
  intro p hp
  exact positionsWhere_lt (mem_everyNth hp)

/-- Positions produced by `trainPositions` address rows of the table. -/
theorem trainPositions_lt {labels : Labels} {trainIdx : List ℕ} :
    ∀ p ∈ trainPositions labels trainIdx, p < labels.table.length := by
  intro p hp
  exact positionsWhere_lt (mem_everyNth hp)

/-! ### C4 — the Filtered Index is train rows then test rows -/

/-- C4: for a subject-partitioned construction, the filtered table is exactly
the selected train rows (in table order, decimated by the fixed 4000
stride) followed by the selected test rows (in table order, decimated by
the test retention stride); the dataset length is the number of surviving
rows, and every returned sample records an index in `[0, len)`. -/
theorem c4_filtered_index (cfg : Config) (labels : Labels) (d : Dataset)
    (trS teS : List String) (trainIdx testIdx testPart : List ℕ)
    (hsplit : subjectSplit cfg.kind = some (trS, teS))
    (htr : resolveAll labels.subject_names trS = some trainIdx)
    (hte : resolveAll labels.subject_names teS = some testIdx)
    (htp : (if cfg.test then testPositions labels cfg testIdx else some []) = some testPart)
    (h : init cfg labels = .ok d) :
    d.labels.table =
        filteredTable labels (if cfg.train then trainPositions labels trainIdx else []) ++
          filteredTable labels testPart ∧
      datasetLen d =
        (if cfg.train then trainPositions labels trainIdx else []).length + testPart.length ∧
      ∀ i s, getitem d i = some s → s.indexes = i ∧ s.indexes < datasetLen d := by
  have hama : cfg.kind ≠ "ama" := by
    intro hk
    rw [hk] at hsplit
    exact absurd hsplit (by simp [subjectSplit])
  obtain ⟨-, -, -, table, pr, hbt, -, hd⟩ := init_ok_spec h
  obtain ⟨testPart2, htp2, htab⟩ := buildTable_ok_spec hama hsplit htr hte hbt
  obtain rfl := Option.some.inj (htp.symm.trans htp2)
  have htestlt : ∀ p ∈ testPart, p < labels.table.length := by
    intro p hp
    split at htp
    · exact testPositions_lt htp p hp
    · obtain rfl := Option.some.inj htp; simp at hp
  have htrainlt : ∀ p ∈ (if cfg.train then trainPositions labels trainIdx else []),
      p < labels.table.length := by
    intro p hp
    split at hp
    · exact trainPositions_lt p hp
    · simp at hp
  have hdt : d.labels.table = table := by rw [hd]
  refine ⟨?_, ?_, ?_⟩
  · rw [hdt, htab, filteredTable_append]
  · have hvalid : ∀ p ∈ (if cfg.train then trainPositions labels trainIdx else []) ++ testPart,
        p < labels.table.length := by
      intro p hp
      rcases List.mem_append.mp hp with hp2 | hp2
      · exact htrainlt p hp2
      · exact htestlt p hp2
    rw [datasetLen, hdt, htab, filteredTable_length hvalid, List.length_append]
  · intro i s hi
    rcases getitem_indexes hi with ⟨h1, h2⟩
    exact ⟨h1, h1 ▸ h2⟩

/-! ### C5 — damaged-action exclusion from the test split -/

/-- C5: for the `"human36m"` kind, when `with_damaged_actions` is unset, no
row whose subject is S9 and whose action is one of Greeting-2,
SittingDown-2, Waiting-1 appears among the test positions; when the flag
is set the test positions are the plain decimation of the test-subject
rows, with no damaged-action exclusion. -/
theorem c5_damaged_exclusion (labels : Labels) (cfg : Config) (testIdx : List ℕ)
    (s9 : ℕ) (dmg : List ℕ)
    (hkind : cfg.kind = "human36m")
    (hs9 : listIndex labels.subject_names "S9" = some s9)
    (hdmg : resolveAll labels.action_names damagedActionNames = some dmg) :
    (¬cfg.with_damaged_actions →
      ∀ tp, testPositions labels cfg testIdx = some tp →
        ∀ p ∈ tp, ∀ r, labels.table.get? p = some r →
          ¬(r.subject_idx = s9 ∧ dmg.contains r.action_idx = true)) ∧
    (cfg.with_damaged_actions →
      testPositions labels cfg testIdx =
        some (everyNth cfg.retain
          (positionsWhere (fun r => testIdx.contains r.subject_idx) labels.table))) := by
  constructor
  · intro hflag tp htp p hp r hget
    rw [testPositions, if_pos ⟨hflag, hkind⟩, hs9, hdmg] at htp
    obtain rfl := (Option.some.inj
      (show some (everyNth cfg.retain (positionsWhere
        (fun r => testIdx.contains r.subject_idx &&
          !(r.subject_idx == s9 && dmg.contains r.action_idx)) labels.table)) = some tp
       from htp)).symm
    rcases positionsWhere_spec (mem_everyNth hp) with ⟨r2, hget2, hr2⟩
    obtain rfl := Option.some.inj (hget.symm.trans hget2)
    rintro ⟨hsub, hact⟩
    simp [hsub] at hr2
    exact hr2.2 (by simpa using hact)
  · intro hflag
    rw [testPositions, if_neg (by simp [hflag])]
    rfl

/-- The dataset produced by a test-only damaged-exclusion construction on
`labelsH36`: rows 1 and 2 survive (row 0 is S9/Greeting-2, row 3 is a
train subject). -/
def dH36f : Dataset :=
  { kind := "human36m"
    labels := { labelsH36 with table := filteredTable labelsH36 [1, 2] }
    ignore_cameras := []
    num_keypoints := 17
    keypoints_3d_pred := none }

/-- Witness for C4 at a concrete input: a test-only construction on
`labelsH36` keeps exactly the test positions `[1, 2]`. -/
theorem c4_filtered_index_witness :
    subjectSplit (cfgH36 false).kind = some (["S1", "S5", "S6", "S7", "S8"], ["S9", "S11"]) ∧
    resolveAll labelsH36.subject_names ["S1", "S5", "S6", "S7", "S8"] = some [0, 1, 2, 3, 4] ∧
    resolveAll labelsH36.subject_names ["S9", "S11"] = some [5, 6] ∧
    (if (cfgH36 false).test then testPositions labelsH36 (cfgH36 false) [5, 6] else some []) =
      some [1, 2] ∧
    init (cfgH36 false) labelsH36 = .ok dH36f ∧
    (dH36f.labels.table =
        filteredTable labelsH36
            (if (cfgH36 false).train then trainPositions labelsH36 [0, 1, 2, 3, 4] else []) ++
          filteredTable labelsH36 [1, 2] ∧
      datasetLen dH36f =
        (if (cfgH36 false).train then trainPositions labelsH36 [0, 1, 2, 3, 4] else []).length +
          [1, 2].length ∧
      ∀ i s, getitem dH36f i = some s → s.indexes = i ∧ s.indexes < datasetLen dH36f) :=
  ⟨rfl, rfl, rfl, rfl, rfl,
    c4_filtered_index (cfgH36 false) labelsH36 dH36f _ _ _ _ _ rfl rfl rfl rfl rfl⟩

/-- Witness for C5 at a concrete input: on `labelsH36` the only damaged row
(S9/Greeting-2, position 0) is excluded — the test positions are `[1, 2]`
— and with the flag set the test positions are the plain subject
selection `[0, 1, 2]`. -/
theorem c5_damaged_exclusion_witness :
    (cfgH36 false).kind = "human36m" ∧
    listIndex labelsH36.subject_names "S9" = some 5 ∧
    resolveAll labelsH36.action_names damagedActionNames = some [1, 2, 3] ∧
    testPositions labelsH36 (cfgH36 false) [5, 6] = some [1, 2] ∧
    ((¬(cfgH36 false).with_damaged_actions →
      ∀ tp, testPositions labelsH36 (cfgH36 false) [5, 6] = some tp →
        ∀ p ∈ tp, ∀ r, labelsH36.table.get? p = some r →
          ¬(r.subject_idx = 5 ∧ [1, 2, 3].contains r.action_idx = true)) ∧
     ((cfgH36 false).with_damaged_actions →
      testPositions labelsH36 (cfgH36 false) [5, 6] =
        some (everyNth (cfgH36 false).retain
          (positionsWhere (fun r => [5, 6].contains r.subject_idx) labelsH36.table)))) :=
  ⟨rfl, rfl, rfl, rfl,
    c5_damaged_exclusion labelsH36 (cfgH36 false) [5, 6] 5 [1, 2, 3] rfl rfl rfl⟩

/-- Witness for C9 at a concrete input. -/
theorem c9_pred_sorted_then_strided_witness :
    cfgPred9.pred = some (kpPred9, [2, 0, 1]) ∧
    ∃ d, init cfgPred9 labelsH36 = .ok d ∧
      ((∃ sorted, applyArgsort [2, 0, 1] kpPred9 = some sorted ∧
          d.keypoints_3d_pred = some (everyNth cfgPred9.retain sorted)) ∧
        applyArgsort [2, 0, 1] [[⟨1, 0, 0⟩], [⟨2, 0, 0⟩], [⟨3, 0, 0⟩]] =
          some [[⟨2, 0, 0⟩], [⟨3, 0, 0⟩], [⟨1, 0, 0⟩]]) := by
  refine ⟨rfl, ?_⟩
  have h : init cfgPred9 labelsH36 = .ok dPred9 := rfl
  exact ⟨dPred9, h,
    c9_pred_sorted_then_strided cfgPred9 labelsH36 dPred9 kpPred9 [2, 0, 1] _ _ _ rfl h⟩

end H36M
